import Mathlib

set_option maxRecDepth 100000

/-!
Verification of the retrieval/embedding core of the MamaOpe RAG service.

The development shallowly embeds the Python sources:
  app/services/document_utils.py      (text chunker)
  app/services/embedding_service.py   (embedding client with cache and batching)
  app/services/vector_search_manager.py (vector index client)
  app/services/vectordb_service.py    (vector store orchestration and retriever)

Modelling conventions:
  * Remote services (the Vertex embedding model, the vector index endpoint)
    are parameters: attempt-indexed oracles returning either a value or an
    exception message string, matching the exception-driven control flow of
    the source.  The source classifies exceptions by substring inspection of
    the message, which is modelled verbatim.
  * time.sleep and random jitter only delay execution; they are dropped, but
    every rate-limit application and every remote attempt is recorded in an
    event log so that claims about throttling and call counts are statable.
  * Embedding vectors are lists of integers: the source never computes with
    the float values, it only stores them, compares them to zero and measures
    lengths, all of which Int models faithfully.
  * Caches keyed by md5(text) are modelled as keyed by the text itself
    (md5 is injective on the corpus for the purposes of the source).
  * Python list slicing a[i:j], str.split, str.strip, and re based helpers
    are translated to executable Lean functions below.
  * Loops are translated to structural recursions; where the source loops on
    a mutable cursor, an explicit fuel argument (instantiated with a bound
    that the loop body provably respects) keeps every definition executable
    and kernel-reducible.
-/

/-! ## Basic helpers shared by all components -/

/-- Python list slicing `l[i:j]` for 0 ≤ i, j (clamping semantics). -/
def pySlice (l : List α) (i j : Nat) : List α :=
  (l.drop i).take (j - i)

/-- Does the character list start with the given pattern? -/
def startsWithChars : List Char → List Char → Bool
  | _, [] => true
  | [], _ :: _ => false
  | c :: rest, p :: ps => p = c && startsWithChars rest ps

/-- Does the pattern occur as a contiguous run anywhere in the list? -/
def occursInChars (pat : List Char) : List Char → Bool
  | [] => startsWithChars [] pat
  | c :: rest => startsWithChars (c :: rest) pat || occursInChars pat rest

/-- Boolean substring test: does `sub` occur inside `s`?  (Python `sub in s`.) -/
def strContains (s sub : String) : Bool :=
  occursInChars sub.data s.data

/-- Python `str.lower()` (ASCII case folding suffices for the error messages
the source inspects). -/
def strLower (s : String) : String :=
  String.mk (s.data.map Char.toLower)

/-- Python `str.strip()`: drop leading and trailing whitespace.  (Kept as a
structural recursion so that the kernel can evaluate it, unlike
`String.trim`.) -/
def pyStrip (s : String) : String :=
  String.mk (((s.data.dropWhile Char.isWhitespace).reverse.dropWhile Char.isWhitespace).reverse)

/-- Python `str.split(sep)` for a nonempty separator: split at each leftmost
occurrence, keeping empty pieces.  Fuel is the character count; every step
consumes at least one character. -/
def splitSepGo (sep : List Char) : Nat → List Char → List Char → List String
  | _, [], cur => [String.mk cur.reverse]
  | 0, l, cur => [String.mk (cur.reverse ++ l)]
  | fuel + 1, c :: rest, cur =>
    if startsWithChars (c :: rest) sep then
      String.mk cur.reverse :: splitSepGo sep fuel ((c :: rest).drop sep.length) []
    else splitSepGo sep fuel rest (c :: cur)

def pySplit (s sep : String) : List String :=
  splitSepGo sep.data s.data.length s.data []

/-- Sequence a list of options: `some` of all values iff no entry is `none`.
Models the `if None in all_embeddings: raise` check. -/
def seqOptions : List (Option α) → Option (List α)
  | [] => some []
  | none :: _ => none
  | some a :: rest =>
    match seqOptions rest with
    | none => none
    | some as => some (a :: as)

instance instDecEqExcept [DecidableEq ε] [DecidableEq α] : DecidableEq (Except ε α) :=
  fun x y =>
    match x, y with
    | .ok a, .ok b =>
      if h : a = b then isTrue (by rw [h])
      else isFalse (by intro hh; cases hh; exact h rfl)
    | .error a, .error b =>
      if h : a = b then isTrue (by rw [h])
      else isFalse (by intro hh; cases hh; exact h rfl)
    | .ok _, .error _ => isFalse (by intro hh; cases hh)
    | .error _, .ok _ => isFalse (by intro hh; cases hh)

/-! ## document_utils.py -/

/-- MODEL_MAX_TOKENS from document_utils.py. -/
def MODEL_MAX_TOKENS : Nat := 15000

/-- SAFE_TARGET_CHUNK_TOKENS from document_utils.py. -/
def SAFE_TARGET_CHUNK_TOKENS : Nat := 1000

/-- `estimate_tokens`: the source first tries the external tiktoken encoder
and, on any tokenizer failure, falls back to `len(text) // 4`.  The encoder
is an external library (not part of this repository), so the token estimator
is kept as an explicit parameter `est` of every definition that consumes it;
this definition is the concrete fallback estimator computed by the source
itself, used to instantiate witnesses and counterexamples. -/
def estimate_tokens (s : String) : Nat :=
  s.length / 4

/-- One step of `re.sub(r"\s+", " ", text)`: collapse every maximal run of
whitespace characters to a single space.  The boolean records whether the
previous character was part of a whitespace run. -/
def collapseWsGo : List Char → Bool → List Char
  | [], _ => []
  | c :: rest, inRun =>
    if c.isWhitespace then
      if inRun then collapseWsGo rest true
      else ' ' :: collapseWsGo rest true
    else c :: collapseWsGo rest false

/-- `re.sub(r"\.([A-Z])", r". \1", text)`: insert a space between a period
and an immediately following ASCII capital letter. -/
def fixPeriodGo : List Char → List Char
  | [] => []
  | '.' :: c :: rest =>
    if 'A' ≤ c ∧ c ≤ 'Z' then '.' :: ' ' :: c :: fixPeriodGo rest
    else '.' :: fixPeriodGo (c :: rest)
  | c :: rest => c :: fixPeriodGo rest

/-- `re.sub(r"\n{3,}", "\n\n", text)`: runs of three or more newlines become
exactly two.  `pending` counts the newline run currently being read. -/
def collapseNlEmit (pending : Nat) : List Char :=
  if pending ≥ 3 then ['\n', '\n'] else List.replicate pending '\n'

def collapseNlGo : List Char → Nat → List Char
  | [], pending => collapseNlEmit pending
  | c :: rest, pending =>
    if c = '\n' then collapseNlGo rest (pending + 1)
    else collapseNlEmit pending ++ c :: collapseNlGo rest 0

/-- Greedy parse of one or more decimal digits; returns the remainder. -/
def eatDigits : List Char → Option (List Char)
  | c :: rest =>
    if c.isDigit then
      match eatDigits rest with
      | some rem => some rem
      | none => some rest
    else none
  | [] => none

/-- Greedy parse of one or more newline characters; returns the remainder. -/
def eatNewlines : List Char → Option (List Char)
  | c :: rest =>
    if c = '\n' then
      match eatNewlines rest with
      | some rem => some rem
      | none => some rest
    else none
  | [] => none

/-- Literal-prefix parse. -/
def eatLit : List Char → List Char → Option (List Char)
  | [], l => some l
  | _ :: _, [] => none
  | p :: ps, c :: rest => if p = c then eatLit ps rest else none

/-- Try to match the footer pattern `\n+Page \d+ of \d+\n+` (greedy) at the
head of the character list, returning the remainder after the match. -/
def matchFooter (l : List Char) : Option (List Char) := do
  let r1 ← eatNewlines l
  let r2 ← eatLit "Page ".data r1
  let r3 ← eatDigits r2
  let r4 ← eatLit " of ".data r3
  let r5 ← eatDigits r4
  eatNewlines r5

/-- `re.sub(r"\n+Page \d+ of \d+\n+", "\n", text)`: scan left to right and
replace every (leftmost, greedy) footer match with a single newline.  The
fuel argument is instantiated with the list length; every step consumes at
least one character so the fuel never runs out. -/
def removeFooterGo : Nat → List Char → List Char
  | _, [] => []
  | 0, l => l
  | fuel + 1, c :: rest =>
    match matchFooter (c :: rest) with
    | some rem => '\n' :: removeFooterGo fuel rem
    | none => c :: removeFooterGo fuel rest

/-- `clean_text` from document_utils.py: whitespace collapse, period fixing,
newline collapsing, footer removal, strip. -/
def clean_text (s : String) : String :=
  let s1 := String.mk (collapseWsGo s.data false)
  let s2 := String.mk (fixPeriodGo s1.data)
  let s3 := String.mk (collapseNlGo s2.data 0)
  let s4 := String.mk (removeFooterGo s3.data.length s3.data)
  pyStrip s4

/-- `re.split(r"(?<=[.!?])\s+", s)`: split after a sentence-ending
punctuation character at each following maximal whitespace run (the
punctuation stays with the left piece, the whitespace is dropped).
`piece` holds the current piece reversed; `skipping` is true while the
whitespace run of a split is being consumed. -/
def isEnder (c : Char) : Bool :=
  c = '.' ∨ c = '!' ∨ c = '?'

def headIsWs : List Char → Bool
  | c :: _ => c.isWhitespace
  | [] => false

def sentSplitGo : List Char → List Char → Bool → List String
  | [], piece, _ => [String.mk piece.reverse]
  | c :: rest, piece, true =>
    if c.isWhitespace then sentSplitGo rest piece true
    else sentSplitGo rest [c] false
  | c :: rest, piece, false =>
    if isEnder c ∧ headIsWs rest then
      String.mk (c :: piece).reverse :: sentSplitGo rest [] true
    else sentSplitGo rest (c :: piece) false

def sentSplit (s : String) : List String :=
  sentSplitGo s.data [] false

/-- Python `str.split()` with no argument: split on whitespace runs,
dropping empty pieces. -/
def wsSplitGo : List Char → List Char → List String
  | [], cur => if cur.isEmpty then [] else [String.mk cur.reverse]
  | c :: rest, cur =>
    if c.isWhitespace then
      if cur.isEmpty then wsSplitGo rest []
      else String.mk cur.reverse :: wsSplitGo rest []
    else wsSplitGo rest (c :: cur)

def wsSplit (s : String) : List String :=
  wsSplitGo s.data []

/-! ### The primary chunking pass of `chunk_text`

State of the paragraph loop: accumulated chunks, the current chunk being
assembled and its token count.  The source appends sentence- and word-level
chunks of an oversized paragraph directly to `chunks` without flushing the
paragraph-level accumulator, which is translated verbatim. -/

/-- Word-level fallback inside `chunk_text`: accumulate words of an
oversized sentence while the token sum stays within `m`.  Returns the
chunks appended plus the leftover word chunk and its count. -/
def wordLoop (est : String → Nat) (m : Nat) :
    List String → List String → String → Nat → List String × String × Nat
  | [], chunks, wordChunk, wordTokens => (chunks, wordChunk, wordTokens)
  | w :: rest, chunks, wordChunk, wordTokens =>
    let wt := est (w ++ " ")
    if wordTokens + wt ≤ m then
      wordLoop est m rest chunks (wordChunk ++ w ++ " ") (wordTokens + wt)
    else
      let chunks1 := if wordChunk ≠ "" then chunks ++ [pyStrip wordChunk] else chunks
      wordLoop est m rest chunks1 (w ++ " ") wt

/-- Sentence loop of `chunk_text` for a paragraph exceeding `m` tokens. -/
def sentLoop (est : String → Nat) (m : Nat) :
    List String → List String → String → Nat → List String × String × Nat
  | [], chunks, sentChunk, sentTokens => (chunks, sentChunk, sentTokens)
  | s :: rest, chunks, sentChunk, sentTokens =>
    if pyStrip s = "" then sentLoop est m rest chunks sentChunk sentTokens
    else
      let st := est s
      if st > m then
        let chunks1 := if sentChunk ≠ "" then chunks ++ [sentChunk] else chunks
        let (chunks2, wordChunk, _) := wordLoop est m (wsSplit s) chunks1 "" 0
        let chunks3 := if wordChunk ≠ "" then chunks2 ++ [pyStrip wordChunk] else chunks2
        sentLoop est m rest chunks3 "" 0
      else if sentTokens + st ≤ m then
        let sc := if sentChunk ≠ "" then sentChunk ++ " " ++ s else s
        sentLoop est m rest chunks sc (sentTokens + st)
      else
        let chunks1 := if sentChunk ≠ "" then chunks ++ [sentChunk] else chunks
        sentLoop est m rest chunks1 s st

/-- Paragraph loop of `chunk_text`. -/
def paraLoop (est : String → Nat) (m : Nat) :
    List String → List String → String → Nat → List String × String × Nat
  | [], chunks, cur, curTokens => (chunks, cur, curTokens)
  | p :: rest, chunks, cur, curTokens =>
    if (pyStrip p).length < 20 then paraLoop est m rest chunks cur curTokens
    else
      let pt := est p
      if pt > m then
        let (chunks1, sentChunk, _) := sentLoop est m (sentSplit (pyStrip p)) chunks "" 0
        let chunks2 := if sentChunk ≠ "" then chunks1 ++ [sentChunk] else chunks1
        paraLoop est m rest chunks2 cur curTokens
      else if curTokens + pt ≤ m then
        let sep := if cur ≠ "" then " " else ""
        paraLoop est m rest chunks (cur ++ sep ++ p) (curTokens + pt)
      else
        let chunks1 := if cur ≠ "" then chunks ++ [cur] else chunks
        paraLoop est m rest chunks1 p pt

/-- The primary pass of `chunk_text` on already-cleaned text: split into
paragraphs, descend to sentences and words for oversized units, flush the
final pending chunk. -/
def primaryPass (est : String → Nat) (t : String) (m : Nat) : List String :=
  let (chunks, cur, _) := paraLoop est m (pySplit t "\n\n") [] "" 0
  if cur ≠ "" then chunks ++ [cur] else chunks

/-- Near-duplicate test of the dedup pass: one chunk contained in the other
and length ratio strictly above 0.7.  The source computes
`len(shorter)/len(longer) > 0.7` in floating point; at every rational value
of the ratio the comparison against the double nearest to 0.7 coincides with
the exact comparison `10 * shorter > 7 * longer` for the string lengths that
occur here, which is the form used below. -/
def isDupOf (c e : String) : Bool :=
  (occursInChars c.data e.data || occursInChars e.data c.data) &&
    decide (10 * min c.length e.length > 7 * max c.length e.length)

/-- Deduplication pass of `chunk_text`: drop chunks shorter than 100
characters, drop chunks that are near-duplicates of an already-kept chunk. -/
def dedupGo : List String → List String → List String
  | [], kept => kept
  | c :: rest, kept =>
    if c.length < 100 then dedupGo rest kept
    else if kept.any (fun e => isDupOf c e) then dedupGo rest kept
    else dedupGo rest (kept ++ [c])

def dedupChunks (l : List String) : List String :=
  dedupGo l []

/-- Post pass of `chunk_text`: re-split any chunk whose estimate exceeds
MODEL_MAX_TOKENS by recursing (`f`) at half the target size. -/
def postPassList (est : String → Nat) (f : String → Nat → Option (List String))
    (m : Nat) : List String → Option (List String)
  | [] => some []
  | c :: rest =>
    if est c > MODEL_MAX_TOKENS then
      match f c (m / 2), postPassList est f m rest with
      | some sub, some tail => some (sub ++ tail)
      | _, _ => none
    else
      match postPassList est f m rest with
      | some tail => some (c :: tail)
      | none => none

/-- `chunk_text` from document_utils.py.  The source recursion
`chunk_text(chunk, max_tokens // 2)` inside the post pass carries no
structural bound, so the model takes a fuel argument: `none` means the
computation did not complete within `fuel` nested re-splits.  The source
parameter `overlap_tokens` is never read by the function body and is
omitted. -/
def chunk_text (est : String → Nat) : Nat → String → Nat → Option (List String)
  | 0, _, _ => none
  | fuel + 1, text, m =>
    if text = "" then some []
    else
      let t := clean_text text
      let chunks := primaryPass est t m
      match postPassList est (fun c m2 => chunk_text est fuel c m2) m chunks with
      | some finalChunks => some (dedupChunks finalChunks)
      | none => none

/-! ### Lemmas about the chunker -/

lemma isDupOf_comm (a b : String) : isDupOf a b = isDupOf b a := by
  simp [isDupOf, Bool.or_comm, min_comm, max_comm]

lemma dedupGo_mem : ∀ l kept (x : String), x ∈ dedupGo l kept → x ∈ kept ∨ x ∈ l := by
  intro l
  induction l with
  | nil =>
    intro kept x hx
    simp only [dedupGo] at hx
    exact Or.inl hx
  | cons c rest ih =>
    intro kept x hx
    simp only [dedupGo] at hx
    split at hx
    · rcases ih kept x hx with h | h
      · exact Or.inl h
      · exact Or.inr (List.mem_cons_of_mem _ h)
    · split at hx
      · rcases ih kept x hx with h | h
        · exact Or.inl h
        · exact Or.inr (List.mem_cons_of_mem _ h)
      · rcases ih (kept ++ [c]) x hx with h | h
        · rcases List.mem_append.mp h with h | h
          · exact Or.inl h
          · simp only [List.mem_singleton] at h
            subst h
            exact Or.inr (List.mem_cons_self _ _)
        · exact Or.inr (List.mem_cons_of_mem _ h)

lemma dedupGo_pairwise : ∀ l kept,
    (∀ a ∈ kept, ∀ b ∈ kept, a ≠ b → isDupOf a b = false) →
    ∀ a ∈ dedupGo l kept, ∀ b ∈ dedupGo l kept, a ≠ b → isDupOf a b = false := by
  intro l
  induction l with
  | nil =>
    intro kept hkept
    simpa only [dedupGo] using hkept
  | cons c rest ih =>
    intro kept hkept
    simp only [dedupGo]
    split
    · exact ih kept hkept
    · split
      · exact ih kept hkept
      · rename_i hshort hany
        apply ih (kept ++ [c])
        have hnot : ∀ e ∈ kept, isDupOf c e = false := by
          intro e he
          by_contra hcon
          have : kept.any (fun e => isDupOf c e) = true :=
            List.any_eq_true.mpr ⟨e, he, by simpa using hcon⟩
          simp [this] at hany
        intro a ha b hb hab
        rcases List.mem_append.mp ha with ha1 | ha1 <;>
          rcases List.mem_append.mp hb with hb1 | hb1
        · exact hkept a ha1 b hb1 hab
        · simp only [List.mem_singleton] at hb1
          subst hb1
          rw [isDupOf_comm]
          exact hnot a ha1
        · simp only [List.mem_singleton] at ha1
          subst ha1
          exact hnot b hb1
        · simp only [List.mem_singleton] at ha1 hb1
          subst ha1; subst hb1
          exact absurd rfl hab

lemma postPassList_bound (est : String → Nat) (f : String → Nat → Option (List String))
    (m : Nat)
    (hf : ∀ c m2 sub, f c m2 = some sub → ∀ x ∈ sub, est x ≤ MODEL_MAX_TOKENS) :
    ∀ l res, postPassList est f m l = some res → ∀ x ∈ res, est x ≤ MODEL_MAX_TOKENS := by
  intro l
  induction l with
  | nil =>
    intro res hres x hx
    simp only [postPassList] at hres
    cases hres
    simp at hx
  | cons c rest ih =>
    intro res hres x hx
    simp only [postPassList] at hres
    split at hres
    · rename_i hgt
      cases hsub : f c (m / 2) with
      | none => rw [hsub] at hres; simp at hres
      | some sub =>
        rw [hsub] at hres
        cases htail : postPassList est f m rest with
        | none => rw [htail] at hres; simp at hres
        | some tail =>
          rw [htail] at hres
          cases hres
          rcases List.mem_append.mp hx with h | h
          · exact hf c (m / 2) sub hsub x h
          · exact ih tail htail x h
    · rename_i hle
      cases htail : postPassList est f m rest with
      | none => rw [htail] at hres; simp at hres
      | some tail =>
        rw [htail] at hres
        cases hres
        rcases List.mem_cons.mp hx with h | h
        · subst h
          omega
        · exact ih tail htail x h

lemma string_empty_append (s : String) : "" ++ s = s := rfl

lemma append_space_ne_empty (w : String) : w ++ " " ≠ "" := by
  intro h
  have hd : (w ++ " ").data = w.data ++ [' '] := String.data_append w " "
  rw [h] at hd
  simp at hd

lemma wordLoop_single (est : String → Nat) (m : Nat) (w : String) :
    wordLoop est m [w] [] "" 0 = ([], w ++ " ", est (w ++ " ")) := by
  simp only [wordLoop, string_empty_append, Nat.zero_add, ne_eq]
  split
  · rfl
  · simp

lemma sentLoop_single (est : String → Nat) (m : Nat) (w : String)
    (hstrip : pyStrip w = w) (hne : w ≠ "") (hwords : wsSplit w = [w])
    (hstripsp : pyStrip (w ++ " ") = w) (hgt : est w > m) :
    sentLoop est m [w] [] "" 0 = ([w], "", 0) := by
  have hsw : ¬ (pyStrip w = "") := by rw [hstrip]; exact hne
  simp only [sentLoop, if_neg hsw, if_pos hgt, ne_eq, not_true_eq_false, if_false,
    hwords, wordLoop_single]
  simp [append_space_ne_empty w, hstripsp, sentLoop]

lemma primaryPass_single (est : String → Nat) (w : String) (m : Nat)
    (hpara : pySplit w "\n\n" = [w])
    (hstrip : pyStrip w = w)
    (hlen : 20 ≤ w.length)
    (hne : w ≠ "")
    (hwords : wsSplit w = [w])
    (hsent : sentSplit w = [w])
    (hstripsp : pyStrip (w ++ " ") = w) :
    primaryPass est w m = [w] := by
  unfold primaryPass
  rw [hpara]
  have h20 : ¬ (w.length < 20) := by omega
  by_cases hm : est w > m
  · simp only [paraLoop, hstrip, if_neg h20, if_pos hm, hsent,
      sentLoop_single est m w hstrip hne hwords hstripsp hm]
    simp [paraLoop]
  · simp only [paraLoop, hstrip, if_neg h20, if_neg hm, ne_eq, not_true_eq_false, if_false,
      Nat.zero_add]
    have hle : est w ≤ m := by omega
    simp only [if_pos hle]
    simp [paraLoop, string_empty_append, hne]

/-- Claim C3: the recursive post pass of `chunk_text` never reaches a fixed
point on a single whitespace-free word whose token estimate exceeds
MODEL_MAX_TOKENS: for every amount of fuel and every target size the
computation fails to complete (in the source this is an unbounded recursion
with `max_tokens` halving to 0 and staying there, terminated only by the
interpreter recursion limit). -/
theorem chunk_text_no_fixed_point (est : String → Nat) (w : String)
    (hne : w ≠ "")
    (hclean : clean_text w = w)
    (hpara : pySplit w "\n\n" = [w])
    (hstrip : pyStrip w = w)
    (hlen : 20 ≤ w.length)
    (hsent : sentSplit w = [w])
    (hwords : wsSplit w = [w])
    (hstripsp : pyStrip (w ++ " ") = w)
    (hbig : MODEL_MAX_TOKENS < est w) :
    ∀ fuel m, chunk_text est fuel w m = none := by
  intro fuel
  induction fuel with
  | zero => intro m; rfl
  | succ fuel ih =>
    intro m
    simp only [chunk_text, if_neg hne, hclean,
      primaryPass_single est w m hpara hstrip hlen hne hwords hsent hstripsp]
    simp only [postPassList, if_pos hbig, ih (m / 2)]

/-- Witness for `chunk_text_no_fixed_point`: a concrete 25-character
whitespace-free word together with an estimator exceeding the model maximum
on it (the fallback estimator of the source produces such an estimate for
any whitespace-free word of 60004 or more characters). -/
def wordC3 : String := String.mk (List.replicate 25 'a')

theorem chunk_text_no_fixed_point_witness :
    clean_text wordC3 = wordC3 ∧ chunk_text (fun _ => 20000) 3 wordC3 1000 = none :=
  ⟨by decide, chunk_text_no_fixed_point (fun _ => 20000) wordC3 (by decide) (by decide)
    (by decide) (by decide) (by decide) (by decide) (by decide) (by decide) (by decide) 3 1000⟩

/-- Claim C4: whenever `chunk_text` completes, every chunk of the returned
list has a token estimate of at most MODEL_MAX_TOKENS — the hard ceiling is
independent of the smaller target size `m` used for the initial split, and
holds for every estimator. -/
theorem chunk_text_token_ceiling (est : String → Nat) :
    ∀ fuel text m out, chunk_text est fuel text m = some out →
      ∀ c ∈ out, est c ≤ MODEL_MAX_TOKENS := by
  intro fuel
  induction fuel with
  | zero =>
    intro text m out h
    exact absurd h (by simp [chunk_text])
  | succ fuel ih =>
    intro text m out h c hc
    simp only [chunk_text] at h
    split at h
    · cases h
      simp at hc
    · cases hpp : postPassList est (fun c2 m2 => chunk_text est fuel c2 m2) m
        (primaryPass est (clean_text text) m) with
      | none =>
        rw [hpp] at h
        cases h
      | some fcs =>
        rw [hpp] at h
        cases h
        have hmem : c ∈ fcs := by
          rcases dedupGo_mem fcs [] c hc with h1 | h1
          · simp at h1
          · exact h1
        exact postPassList_bound est _ m
          (fun c2 m2 sub hsub x hx => ih c2 m2 sub hsub x hx) _ fcs hpp c hmem

/-- Concrete input for the chunker witnesses: 24 repetitions of a word. -/
def textC4 : String := String.join (List.replicate 24 "word ")

theorem chunk_text_token_ceiling_witness :
    chunk_text estimate_tokens 1 textC4 1000 = some [pyStrip textC4] ∧
    estimate_tokens (pyStrip textC4) ≤ MODEL_MAX_TOKENS :=
  ⟨by decide, chunk_text_token_ceiling estimate_tokens 1 textC4 1000 [pyStrip textC4]
    (by decide) (pyStrip textC4) (by simp)⟩

/-- Sixty-character filler prefix for the deduplication counterexample. -/
def pieceC8 : String := String.join (List.replicate 12 "aaaa ")

/-- A 140-character sentence. -/
def chunkC8short : String := String.join (List.replicate 27 "bbbb ") ++ "bbbb."

/-- A 200-character sentence ending in the 140-character one: containment
with length ratio exactly 140/200 = 0.7. -/
def chunkC8long : String := pieceC8 ++ chunkC8short

def textC8 : String := chunkC8long ++ " " ++ chunkC8short

/-- Claim C8 counterexample: two chunks where the shorter is a substring of
the longer at length ratio exactly 0.7 — so the pair is "≥ 70%-length-
contained" as the claim states — yet both survive in the final output,
because the source drops a chunk only at ratio strictly greater than 0.7. -/
theorem chunk_text_dedup_at_boundary :
    chunk_text estimate_tokens 2 textC8 50 = some [chunkC8long, chunkC8short] ∧
    occursInChars chunkC8short.data chunkC8long.data = true ∧
    10 * chunkC8short.length ≥ 7 * chunkC8long.length ∧
    chunkC8long ≠ chunkC8short :=
  ⟨by decide, by decide, by decide, by decide⟩

/-- Claim C8 (amended): in every completed `chunk_text` output, no two
distinct chunks stand in the strict near-duplicate relation (substring
containment with length ratio strictly greater than 0.7); of any candidate
pair in that relation at most one chunk survives — the one kept earlier. -/
theorem chunk_text_dedup_pairwise (est : String → Nat) (fuel : Nat) (text : String)
    (m : Nat) (out : List String) (h : chunk_text est fuel text m = some out) :
    ∀ a ∈ out, ∀ b ∈ out, a ≠ b → isDupOf a b = false := by
  cases fuel with
  | zero => exact absurd h (by simp [chunk_text])
  | succ fuel =>
    simp only [chunk_text] at h
    split at h
    · cases h
      intro a ha
      simp at ha
    · cases hpp : postPassList est (fun c2 m2 => chunk_text est fuel c2 m2) m
        (primaryPass est (clean_text text) m) with
      | none =>
        rw [hpp] at h
        cases h
      | some fcs =>
        rw [hpp] at h
        cases h
        exact dedupGo_pairwise fcs [] (by intro a ha; simp at ha)

theorem chunk_text_dedup_pairwise_witness :
    chunk_text estimate_tokens 2 textC8 50 = some [chunkC8long, chunkC8short] ∧
    isDupOf chunkC8long chunkC8short = false :=
  ⟨by decide, chunk_text_dedup_pairwise estimate_tokens 2 textC8 50
    [chunkC8long, chunkC8short] (by decide) chunkC8long (by simp) chunkC8short (by simp)
    (by decide)⟩

/-! ## embedding_service.py -/

/-- Embedding vectors.  The source never computes with the float entries: it
stores them, compares them with zero and takes lengths, so integer entries
model them faithfully. -/
abbrev Emb := List Int

/-- Quota classification of `embed_query` and `embed_documents`:
`"429" in msg or "quota" in msg.lower() or "exceeded" in msg.lower()`. -/
def isQuotaMsgQE (msg : String) : Bool :=
  strContains msg "429" || strContains (strLower msg) "quota" ||
    strContains (strLower msg) "exceeded"

/-- Quota classification of `create_and_upload` and `upload_embeddings`:
`"429" in msg or "quota" in msg.lower() or "limit" in msg.lower()`. -/
def isQuotaMsgQL (msg : String) : Bool :=
  strContains msg "429" || strContains (strLower msg) "quota" ||
    strContains (strLower msg) "limit"

/-- State of an `EmbeddingFunction` instance: the in-memory cache, the
persistent file cache (both keyed by the text, standing for its md5), and
the hit/request counters.  File reads and writes are modelled as always
succeeding; the source merely logs cache IO errors and continues. -/
structure EmbState where
  mem : List (String × Emb)
  file : List (String × Emb)
  cacheHits : Nat
  requestCount : Nat
deriving DecidableEq

/-- The empty embedding-function state (fresh instance, empty disk cache). -/
def emptyEmbState : EmbState := ⟨[], [], 0, 0⟩

/-- Observable events of an embedding-service run: a rate-limit application
(`_apply_rate_limit`), a remote model call, a backoff sleep. -/
inductive EmbEvent where
  | rateLimit : EmbEvent
  | remoteCall (k : Nat) (batch : List String) : EmbEvent
  | backoff : EmbEvent
  | attempt (start bs size : Nat) : EmbEvent
deriving DecidableEq

/-- Python truthiness of a cached value: `if cached:` is false for `None`
and for the empty list. -/
def truthy (e : Emb) : Bool := !e.isEmpty

/-- `_get_from_cache`: memory tier first, then the file tier (copying a file
hit into memory); both tiers count as cache hits. -/
def get_from_cache (st : EmbState) (text : String) : Option Emb × EmbState :=
  match List.lookup text st.mem with
  | some e => (some e, { st with cacheHits := st.cacheHits + 1 })
  | none =>
    match List.lookup text st.file with
    | some e =>
      (some e, { st with mem := (text, e) :: st.mem, cacheHits := st.cacheHits + 1 })
    | none => (none, st)

/-- `_save_to_cache`: write through to both tiers. -/
def save_to_cache (st : EmbState) (text : String) (e : Emb) : EmbState :=
  { st with mem := (text, e) :: st.mem, file := (text, e) :: st.file }

/-- `_apply_rate_limit`: the sleeps are dropped; the request counter update
is kept and the event is logged by the callers. -/
def apply_rate_limit (st : EmbState) : EmbState :=
  { st with requestCount := st.requestCount + 1 }

/-- `validate_embedding`: invalid if empty, of length other than 768, or
all-zero. -/
def validate_embedding (e : Emb) : Bool :=
  if e.isEmpty then false
  else if e.length ≠ 768 then false
  else if e.all (fun v => v == 0) then false
  else true

/-- Retry loop of `embed_query` (max_retries = 5): `svc k` is the outcome of
the remote call on attempt `k`.  On a quota-classified error back off and
retry; on another error retry up to the ceiling, then re-raise; exhausting
the loop raises the RuntimeError of the source. -/
def embedQueryRetry (svc : Nat → Except String Emb) (text : String) :
    Nat → Nat → EmbState → List EmbEvent → Except String Emb × EmbState × List EmbEvent
  | 0, _, st, log => (.error "Failed to get embedding after 5 retries", st, log)
  | aLeft + 1, k, st, log =>
    match svc k with
    | .ok e => (.ok e, save_to_cache st text e, log ++ [.remoteCall k [text]])
    | .error msg =>
      let log1 := log ++ [.remoteCall k [text]]
      if isQuotaMsgQE msg then
        embedQueryRetry svc text aLeft (k + 1) st (log1 ++ [.backoff])
      else if k + 1 < 5 then
        embedQueryRetry svc text aLeft (k + 1) st (log1 ++ [.backoff])
      else (.error msg, st, log1)

/-- `embed_query`: cache probe first — a truthy hit short-circuits before
the rate limiter and before any remote call (empty event list); otherwise
apply the rate limit and enter the retry loop. -/
def embed_query (svc : Nat → Except String Emb) (st : EmbState) (text : String) :
    Except String Emb × EmbState × List EmbEvent :=
  match get_from_cache st text with
  | (some e, st1) =>
    if truthy e then (.ok e, st1, [])
    else embedQueryRetry svc text 5 0 (apply_rate_limit st1) [.rateLimit]
  | (none, st1) =>
    embedQueryRetry svc text 5 0 (apply_rate_limit st1) [.rateLimit]

lemma embedQueryRetry_ok_mem (svc : Nat → Except String Emb) (text : String) :
    ∀ aLeft k st log e st1 lg,
      embedQueryRetry svc text aLeft k st log = (.ok e, st1, lg) →
      List.lookup text st1.mem = some e := by
  intro aLeft
  induction aLeft with
  | zero =>
    intro k st log e st1 lg h
    simp [embedQueryRetry] at h
  | succ aLeft ih =>
    intro k st log e st1 lg h
    simp only [embedQueryRetry] at h
    cases hsvc : svc k with
    | ok v =>
      rw [hsvc] at h
      simp only [Prod.mk.injEq] at h
      obtain ⟨he, hst, -⟩ := h
      cases he
      rw [← hst]
      simp [save_to_cache]
    | error msg =>
      rw [hsvc] at h
      simp only at h
      split at h
      · exact ih _ _ _ e st1 lg h
      · split at h
        · exact ih _ _ _ e st1 lg h
        · simp at h

lemma embed_query_ok_mem (svc : Nat → Except String Emb) (st : EmbState)
    (text : String) (e : Emb) (st1 : EmbState) (lg : List EmbEvent)
    (h : embed_query svc st text = (.ok e, st1, lg)) :
    List.lookup text st1.mem = some e := by
  unfold embed_query at h
  cases hc : get_from_cache st text with
  | mk copt st2 =>
    rw [hc] at h
    cases copt with
    | some v =>
      simp only at h
      split at h
      · simp only [Prod.mk.injEq] at h
        obtain ⟨he, hst, -⟩ := h
        cases he
        cases hst
        unfold get_from_cache at hc
        cases hm : List.lookup text st.mem with
        | some u =>
          rw [hm] at hc
          simp only [Prod.mk.injEq, Option.some.injEq] at hc
          obtain ⟨hu, hst2⟩ := hc
          rw [← hst2]
          simpa [hu] using hm
        | none =>
          rw [hm] at hc
          cases hf : List.lookup text st.file with
          | some u =>
            rw [hf] at hc
            simp only [Prod.mk.injEq, Option.some.injEq] at hc
            obtain ⟨hu, hst2⟩ := hc
            rw [← hst2]
            simp [hu]
          | none =>
            rw [hf] at hc
            simp at hc
      · exact embedQueryRetry_ok_mem svc text 5 0 _ _ e st1 lg h
    | none =>
      simp only at h
      exact embedQueryRetry_ok_mem svc text 5 0 _ _ e st1 lg h

/-- Claim C5 (amended): if `embed_query` succeeds and returns a non-empty
vector, a second call with the identical string — against an arbitrary
second-call service behaviour — returns the identical vector with an empty
event log: no remote call and no rate-limit application (the cache hit
short-circuits before `_apply_rate_limit`). -/
theorem embed_query_cache_idempotent (svc svc2 : Nat → Except String Emb)
    (st : EmbState) (text : String) (e : Emb) (st1 : EmbState) (lg : List EmbEvent)
    (h : embed_query svc st text = (.ok e, st1, lg)) (hne : e ≠ []) :
    embed_query svc2 st1 text =
      (.ok e, { st1 with cacheHits := st1.cacheHits + 1 }, []) := by
  have hmem : List.lookup text st1.mem = some e := embed_query_ok_mem svc st text e st1 lg h
  have htr : truthy e = true := by
    cases e with
    | nil => exact absurd rfl hne
    | cons a as => rfl
  unfold embed_query get_from_cache
  rw [hmem]
  simp [htr]

/-- A remote service returning a fixed valid vector on every attempt. -/
def svcConstC5 : Nat → Except String Emb := fun _ => .ok (List.replicate 768 2)

theorem embed_query_cache_idempotent_witness :
    embed_query svcConstC5 emptyEmbState "q" =
      (.ok (List.replicate 768 2), save_to_cache (apply_rate_limit emptyEmbState) "q"
        (List.replicate 768 2), [.rateLimit, .remoteCall 0 ["q"]]) ∧
    embed_query svcConstC5 (save_to_cache (apply_rate_limit emptyEmbState) "q"
        (List.replicate 768 2)) "q" =
      (.ok (List.replicate 768 2),
        { save_to_cache (apply_rate_limit emptyEmbState) "q" (List.replicate 768 2) with
            cacheHits := (save_to_cache (apply_rate_limit emptyEmbState) "q"
              (List.replicate 768 2)).cacheHits + 1 }, []) :=
  ⟨by decide, embed_query_cache_idempotent svcConstC5 svcConstC5 emptyEmbState "q"
    (List.replicate 768 2)
    (save_to_cache (apply_rate_limit emptyEmbState) "q" (List.replicate 768 2))
    [.rateLimit, .remoteCall 0 ["q"]] (by decide) (by decide)⟩

/-- A remote service returning the empty vector (a "successful" call). -/
def svcEmptyC5 : Nat → Except String Emb := fun _ => .ok []

/-- Claim C5 counterexample: with only "the first call succeeded" as the
hypothesis, the claim is false — a successful first call returning the empty
vector is cached but fails Python truthiness, so the second identical call
rate-limits and calls the remote service again instead of short-circuiting. -/
theorem embed_query_second_call_not_cached :
    (embed_query svcEmptyC5 emptyEmbState "q").1 = .ok [] ∧
    (embed_query svcEmptyC5
        (embed_query svcEmptyC5 emptyEmbState "q").2.1 "q").2.2 =
      [.rateLimit, .remoteCall 0 ["q"]] := by
  constructor
  · decide
  · decide

/-- Phase 1 of `embed_documents`: probe the cache for each text (in order,
with the running index `i`), collecting truthy hits as `(index, value)`
pairs and the remaining texts with their original indices. -/
def partitionCached : EmbState → List String → Nat →
    List (Nat × Emb) × List String × List Nat × EmbState
  | st, [], _ => ([], [], [], st)
  | st, t :: rest, i =>
    match get_from_cache st t with
    | (some e, st1) =>
      if truthy e then
        let (rs, uts, uis, st2) := partitionCached st1 rest (i + 1)
        ((i, e) :: rs, uts, uis, st2)
      else
        let (rs, uts, uis, st2) := partitionCached st1 rest (i + 1)
        (rs, t :: uts, i :: uis, st2)
    | (none, st1) =>
      let (rs, uts, uis, st2) := partitionCached st1 rest (i + 1)
      (rs, t :: uts, i :: uis, st2)

/-- Token-budget pre-shrink of `embed_documents`: halve the batch size while
the token sum of the current candidate batch exceeds 8000 and the size is
above 1.  The fuel is instantiated with the starting size, which bounds the
number of halvings. -/
def shrinkToBudget (est : String → Nat) (uncached : List String) (start : Nat) :
    Nat → Nat → Nat
  | 0, bs => bs
  | fuel + 1, bs =>
    let endI := min (start + bs) uncached.length
    let batch := pySlice uncached start endI
    let tot := (batch.map est).sum
    if tot > 8000 ∧ bs > 1 then shrinkToBudget est uncached start fuel (max 1 (bs / 2))
    else bs

/-- Retry loop of `embed_documents` for the batch at `start` (max_retries =
5).  `svc` is indexed by the running count `cnt` of remote model calls; `k`
is the retry count before the current attempt.  On a quota-classified error
the batch size is halved (floor 1) and the batch rebuilt; exhausting the
quota path raises the RuntimeError of the source, a non-quota error at the
ceiling re-raises.  Returns the values with the batch size used, the new
call count, and the per-attempt log `(start, bs, size, outcome)`. -/
def embedDocsRetry (svc : Nat → List String → Except String (List Emb))
    (uncached : List String) (start : Nat) :
    Nat → Nat → Nat → Nat →
    Except String (List Emb × Nat) × Nat × List (Nat × Nat × Nat × Bool)
  | 0, _, _, cnt => (.error "Failed to embed batch after 5 retries", cnt, [])
  | aLeft + 1, k, bs, cnt =>
    let endI := min (start + bs) uncached.length
    let batch := pySlice uncached start endI
    match svc cnt batch with
    | .ok vals => (.ok (vals, bs), cnt + 1, [(start, bs, batch.length, true)])
    | .error msg =>
      if isQuotaMsgQE msg then
        let bs2 := if bs > 1 then max 1 (bs / 2) else bs
        let (r, c2, lg) := embedDocsRetry svc uncached start aLeft (k + 1) bs2 (cnt + 1)
        (r, c2, (start, bs, batch.length, false) :: lg)
      else if k + 1 < 5 then
        let (r, c2, lg) := embedDocsRetry svc uncached start aLeft (k + 1) bs (cnt + 1)
        (r, c2, (start, bs, batch.length, false) :: lg)
      else (.error msg, cnt + 1, [(start, bs, batch.length, false)])

/-- Write the embeddings of a completed batch into the result array at the
original indices (`all_embeddings[uncached_indices[start + i]] = emb`).
The index lookup is total (`getD`) because the positions written are always
within `uncached_indices`, which has one entry per uncached text. -/
def fillAll (idxOf : List Nat) : Nat → List (String × Emb) → List (Option Emb) →
    List (Option Emb)
  | _, [], alls => alls
  | j, p :: ps, alls => fillAll idxOf (j + 1) ps (alls.set (idxOf.getD j 0) (some p.2))

/-- Main batching loop of `embed_documents`: rate-limit, pre-shrink to the
token budget, run the retry loop, write back cache entries and results, and
advance the cursor to the end of the (possibly shrunken) batch.  The fuel is
instantiated with the number of uncached texts: the cursor advances by at
least one per iteration. -/
def embedDocsLoop (svc : Nat → List String → Except String (List Emb))
    (est : String → Nat) (uncached : List String) (idxOf : List Nat) :
    Nat → Nat → Nat → Nat → List (Option Emb) → EmbState → List EmbEvent →
    Except String (List (Option Emb)) × EmbState × List EmbEvent
  | 0, start, _, _, alls, st, log =>
    (if start < uncached.length then .error "loop fuel exhausted" else .ok alls, st, log)
  | fuel + 1, start, bs, cnt, alls, st, log =>
    if start < uncached.length then
      let st1 := apply_rate_limit st
      let log1 := log ++ [.rateLimit]
      let bs1 := shrinkToBudget est uncached start bs bs
      match embedDocsRetry svc uncached start 5 0 bs1 cnt with
      | (.error msg, _, atts) =>
        (.error msg, st1, log1 ++ atts.map (fun a => .attempt a.1 a.2.1 a.2.2.1))
      | (.ok (vals, bsUsed), cnt2, atts) =>
        let endI := min (start + bsUsed) uncached.length
        let batch := pySlice uncached start endI
        let pairs := batch.zip vals
        let st2 := pairs.foldl (fun s p => save_to_cache s p.1 p.2) st1
        let alls2 := fillAll idxOf start pairs alls
        embedDocsLoop svc est uncached idxOf fuel endI bsUsed cnt2 alls2 st2
          (log1 ++ atts.map (fun a => .attempt a.1 a.2.1 a.2.2.1))
    else (.ok alls, st, log)

/-- `embed_documents`: empty input returns immediately; otherwise probe the
cache, return directly when everything was cached (the source sorts the hit
list by original index — the hits are accumulated in ascending index order,
so that sort is the identity and is modelled as such), and run the batching
loop over the uncached remainder, starting from batch size 10.  A gap left
in the result array raises instead of being returned. -/
def embed_documents (svc : Nat → List String → Except String (List Emb))
    (est : String → Nat) (st : EmbState) (texts : List String) :
    Except String (List Emb) × EmbState × List EmbEvent :=
  if texts = [] then (.ok [], st, [])
  else
    let (results, uncachedTexts, uncachedIdx, st1) := partitionCached st texts 0
    if uncachedTexts.isEmpty then (.ok (results.map Prod.snd), st1, [])
    else
      let alls0 := List.replicate texts.length (none : Option Emb)
      let alls1 := results.foldl (fun a p => a.set p.1 (some p.2)) alls0
      match embedDocsLoop svc est uncachedTexts uncachedIdx uncachedTexts.length
          0 10 0 alls1 st1 [] with
      | (.error msg, st2, log) => (.error msg, st2, log)
      | (.ok alls2, st2, log) =>
        match seqOptions alls2 with
        | some out => (.ok out, st2, log)
        | none => (.error "Some embeddings were not generated", st2, log)

/-- Two-tier cache lookup (memory first, then file): the value a probe of
the given state would return. -/
def lookupCaches (st : EmbState) (t : String) : Option Emb :=
  match List.lookup t st.mem with
  | some v => some v
  | none => List.lookup t st.file

/-- The service produced `e` for text `t`: some call returned a value list
holding `e` at the same position `t` held in the input batch. -/
def producedBy (svc : Nat → List String → Except String (List Emb))
    (t : String) (e : Emb) : Prop :=
  ∃ k batch vals j, svc k batch = .ok vals ∧ batch.get? j = some t ∧ vals.get? j = some e

lemma seqOptions_length : ∀ (l : List (Option α)) out, seqOptions l = some out →
    out.length = l.length := by
  intro l
  induction l with
  | nil =>
    intro out h
    simp only [seqOptions, Option.some.injEq] at h
    rw [← h]
    rfl
  | cons o rest ih =>
    intro out h
    cases o with
    | none => simp [seqOptions] at h
    | some a =>
      simp only [seqOptions] at h
      cases hr : seqOptions rest with
      | none => rw [hr] at h; simp at h
      | some as =>
        rw [hr] at h
        simp only [Option.some.injEq] at h
        rw [← h]
        simp [ih as hr]

lemma seqOptions_get : ∀ (l : List (Option α)) out, seqOptions l = some out →
    ∀ i e, out.get? i = some e → l.get? i = some (some e) := by
  intro l
  induction l with
  | nil =>
    intro out h i e hi
    simp only [seqOptions, Option.some.injEq] at h
    rw [← h] at hi
    simp at hi
  | cons o rest ih =>
    intro out h i e hi
    cases o with
    | none => simp [seqOptions] at h
    | some a =>
      simp only [seqOptions] at h
      cases hr : seqOptions rest with
      | none => rw [hr] at h; simp at h
      | some as =>
        rw [hr] at h
        simp only [Option.some.injEq] at h
        rw [← h] at hi
        cases i with
        | zero =>
          simp only [List.get?] at hi ⊢
          cases hi
          rfl
        | succ i =>
          simp only [List.get?] at hi ⊢
          exact ih as hr i e hi

lemma pySlice_get (l : List α) (i j p : Nat) (hp : p < j - i) :
    (pySlice l i j).get? p = l.get? (i + p) := by
  unfold pySlice
  rw [List.get?_take hp, List.get?_drop]

lemma pySlice_length (l : List α) (i j : Nat) :
    (pySlice l i j).length = min (j - i) (l.length - i) := by
  unfold pySlice
  rw [List.length_take, List.length_drop]

lemma get_from_cache_spec (st : EmbState) (t : String) (copt : Option Emb)
    (st1 : EmbState) (h : get_from_cache st t = (copt, st1)) :
    (∀ u, lookupCaches st1 u = lookupCaches st u) ∧
    (∀ e, copt = some e → lookupCaches st t = some e) := by
  unfold get_from_cache at h
  cases hm : List.lookup t st.mem with
  | some e =>
    rw [hm] at h
    simp only [Prod.mk.injEq] at h
    obtain ⟨hc, hst⟩ := h
    constructor
    · intro u
      rw [← hst]
      simp [lookupCaches]
    · intro e2 he2
      rw [← hc] at he2
      cases he2
      simp [lookupCaches, hm]
  | none =>
    rw [hm] at h
    cases hf : List.lookup t st.file with
    | some e =>
      rw [hf] at h
      simp only [Prod.mk.injEq] at h
      obtain ⟨hc, hst⟩ := h
      constructor
      · intro u
        rw [← hst]
        simp only [lookupCaches]
        by_cases hu : u = t
        · subst hu
          simp [List.lookup, hm, hf]
        · have : (u == t) = false := by simp [hu]
          simp [List.lookup, this]
      · intro e2 he2
        rw [← hc] at he2
        cases he2
        simp [lookupCaches, hm, hf]
    | none =>
      rw [hf] at h
      simp only [Prod.mk.injEq] at h
      obtain ⟨hc, hst⟩ := h
      rw [← hst]
      exact ⟨fun u => rfl, fun e2 he2 => by rw [← hc] at he2; cases he2⟩

lemma partitionCached_spec : ∀ (texts : List String) (st : EmbState) (i0 : Nat)
    rs uts uis st4, partitionCached st texts i0 = (rs, uts, uis, st4) →
    (∀ u, lookupCaches st4 u = lookupCaches st u) ∧
    uts.length = uis.length ∧
    (∀ p t, uts.get? p = some t → ∃ i, uis.get? p = some i ∧ i0 ≤ i ∧
      texts.get? (i - i0) = some t) ∧
    (∀ pr ∈ rs, i0 ≤ pr.1 ∧ ∃ t, texts.get? (pr.1 - i0) = some t ∧
      lookupCaches st t = some pr.2) := by
  intro texts
  induction texts with
  | nil =>
    intro st i0 rs uts uis st4 h
    simp only [partitionCached, Prod.mk.injEq] at h
    obtain ⟨h1, h2, h3, h4⟩ := h
    subst h1; subst h2; subst h3; subst h4
    refine ⟨fun u => rfl, rfl, ?_, ?_⟩
    · intro p t hp
      simp at hp
    · intro pr hpr
      simp at hpr
  | cons t rest ih =>
    intro st i0 rs uts uis st4 h
    simp only [partitionCached] at h
    cases hc : get_from_cache st t with
    | mk copt st1 =>
      rw [hc] at h
      obtain ⟨hstable, hval⟩ := get_from_cache_spec st t copt st1 hc
      cases hrec : partitionCached st1 rest (i0 + 1) with
      | mk rs' w =>
        cases w with
        | mk uts' w2 =>
          cases w2 with
          | mk uis' st4x =>
            obtain ⟨hstable2, hlen2, huts2, hrs2⟩ := ih st1 (i0 + 1) rs' uts' uis' st4x hrec
            have hmain : (∀ u, lookupCaches st4x u = lookupCaches st u) := by
              intro u
              rw [hstable2 u, hstable u]
            have cons_ut : ∀ (p : Nat) (u : String), (t :: uts').get? p = some u →
                ∃ i, (i0 :: uis').get? p = some i ∧ i0 ≤ i ∧
                  (t :: rest).get? (i - i0) = some u := by
              intro p u hp
              cases p with
              | zero =>
                simp only [List.get?] at hp ⊢
                cases hp
                exact ⟨i0, rfl, le_refl i0, by simp⟩
              | succ p =>
                simp only [List.get?] at hp ⊢
                obtain ⟨i, hi, hle, hget⟩ := huts2 p u hp
                refine ⟨i, hi, by omega, ?_⟩
                have : i - i0 = (i - (i0 + 1)) + 1 := by omega
                rw [this]
                simpa using hget
            have keep_ut : ∀ (p : Nat) (u : String), uts'.get? p = some u →
                ∃ i, uis'.get? p = some i ∧ i0 ≤ i ∧
                  (t :: rest).get? (i - i0) = some u := by
              intro p u hp
              obtain ⟨i, hi, hle, hget⟩ := huts2 p u hp
              refine ⟨i, hi, by omega, ?_⟩
              have hh : i - i0 = (i - (i0 + 1)) + 1 := by omega
              rw [hh]
              simpa using hget
            have rest_rs : ∀ pr ∈ rs', i0 ≤ pr.1 ∧ ∃ u, (t :: rest).get? (pr.1 - i0) = some u ∧
                lookupCaches st u = some pr.2 := by
              intro pr hpr
              obtain ⟨hle, u, hget, hlk⟩ := hrs2 pr hpr
              refine ⟨by omega, u, ?_, by rw [← hstable u]; exact hlk⟩
              have : pr.1 - i0 = (pr.1 - (i0 + 1)) + 1 := by omega
              rw [this]
              simpa using hget
            cases copt with
            | some e =>
              simp only at h
              split at h
              · rw [hrec] at h
                simp only [Prod.mk.injEq] at h
                obtain ⟨h1, h2, h3, h4⟩ := h
                subst h1; subst h2; subst h3; subst h4
                refine ⟨hmain, hlen2, keep_ut, ?_⟩
                intro pr hpr
                rcases List.mem_cons.mp hpr with hpr1 | hpr1
                · subst hpr1
                  refine ⟨le_refl i0, t, by simp, hval e rfl⟩
                · exact rest_rs pr hpr1
              · rw [hrec] at h
                simp only [Prod.mk.injEq] at h
                obtain ⟨h1, h2, h3, h4⟩ := h
                subst h1; subst h2; subst h3; subst h4
                exact ⟨hmain, by simp [hlen2], cons_ut, rest_rs⟩
            | none =>
              simp only at h
              rw [hrec] at h
              simp only [Prod.mk.injEq] at h
              obtain ⟨h1, h2, h3, h4⟩ := h
              subst h1; subst h2; subst h3; subst h4
              exact ⟨hmain, by simp [hlen2], cons_ut, rest_rs⟩

lemma partitionCached_all_cached : ∀ (texts : List String) (st : EmbState) (i0 : Nat)
    rs uis st4, partitionCached st texts i0 = (rs, [], uis, st4) →
    rs.length = texts.length ∧
    ∀ p, p < texts.length → ∃ t e, rs.get? p = some (i0 + p, e) ∧ texts.get? p = some t ∧
      lookupCaches st t = some e := by
  intro texts
  induction texts with
  | nil =>
    intro st i0 rs uis st4 h
    simp only [partitionCached, Prod.mk.injEq] at h
    obtain ⟨h1, -, -, -⟩ := h
    subst h1
    exact ⟨rfl, fun p hp => absurd hp (by simp)⟩
  | cons t rest ih =>
    intro st i0 rs uis st4 h
    simp only [partitionCached] at h
    cases hc : get_from_cache st t with
    | mk copt st1 =>
      rw [hc] at h
      obtain ⟨hstable, hval⟩ := get_from_cache_spec st t copt st1 hc
      cases hrec : partitionCached st1 rest (i0 + 1) with
      | mk rs' w =>
        cases w with
        | mk uts' w2 =>
          cases w2 with
          | mk uis' st4x =>
            cases copt with
            | some e =>
              simp only at h
              split at h
              · rw [hrec] at h
                simp only [Prod.mk.injEq] at h
                obtain ⟨h1, h2, h3, h4⟩ := h
                subst h2
                obtain ⟨hlen, hspec⟩ := ih st1 (i0 + 1) rs' uis' st4x hrec
                subst h1
                constructor
                · simp [hlen]
                · intro p hp
                  cases p with
                  | zero =>
                    exact ⟨t, e, by simp, by simp, hval e rfl⟩
                  | succ p =>
                    simp only [List.length_cons] at hp
                    obtain ⟨u, e2, hget, htext, hlk⟩ := hspec p (by omega)
                    refine ⟨u, e2, ?_, by simpa using htext, by rw [← hstable u]; exact hlk⟩
                    have : i0 + (p + 1) = (i0 + 1) + p := by omega
                    rw [this]
                    simpa using hget
              · rw [hrec] at h
                simp only [Prod.mk.injEq] at h
                obtain ⟨-, h2, -, -⟩ := h
                simp at h2
            | none =>
              simp only at h
              rw [hrec] at h
              simp only [Prod.mk.injEq] at h
              obtain ⟨-, h2, -, -⟩ := h
              simp at h2

lemma embedDocsRetry_ok (svc : Nat → List String → Except String (List Emb))
    (uncached : List String) (start : Nat) :
    ∀ aLeft k bs cnt vals bsUsed cnt2 atts,
      embedDocsRetry svc uncached start aLeft k bs cnt = (.ok (vals, bsUsed), cnt2, atts) →
      ∃ kk, svc kk (pySlice uncached start (min (start + bsUsed) uncached.length)) = .ok vals := by
  intro aLeft
  induction aLeft with
  | zero =>
    intro k bs cnt vals bsUsed cnt2 atts h
    simp [embedDocsRetry] at h
  | succ aLeft ih =>
    intro k bs cnt vals bsUsed cnt2 atts h
    simp only [embedDocsRetry] at h
    cases hsvc : svc cnt (pySlice uncached start (min (start + bs) uncached.length)) with
    | ok v =>
      rw [hsvc] at h
      simp only [Prod.mk.injEq, Except.ok.injEq] at h
      obtain ⟨⟨hv, hbs⟩, -, -⟩ := h
      subst hv; subst hbs
      exact ⟨cnt, hsvc⟩
    | error msg =>
      rw [hsvc] at h
      simp only at h
      split at h
      · cases hrec : embedDocsRetry svc uncached start aLeft (k + 1)
            (if bs > 1 then max 1 (bs / 2) else bs) (cnt + 1) with
        | mk r w =>
          rw [hrec] at h
          simp only [Prod.mk.injEq] at h
          obtain ⟨h1, h2, -⟩ := h
          cases w with
          | mk c2 lg =>
            exact ih _ _ _ vals bsUsed c2 lg (by rw [hrec, h1])
      · split at h
        · cases hrec : embedDocsRetry svc uncached start aLeft (k + 1) bs (cnt + 1) with
          | mk r w =>
            rw [hrec] at h
            simp only [Prod.mk.injEq] at h
            obtain ⟨h1, h2, -⟩ := h
            cases w with
            | mk c2 lg =>
              exact ih _ _ _ vals bsUsed c2 lg (by rw [hrec, h1])
        · simp at h

lemma zip_get : ∀ (l1 : List α) (l2 : List β) q a b,
    (l1.zip l2).get? q = some (a, b) → l1.get? q = some a ∧ l2.get? q = some b := by
  intro l1
  induction l1 with
  | nil =>
    intro l2 q a b h
    simp at h
  | cons x xs ih =>
    intro l2 q a b h
    cases l2 with
    | nil => simp at h
    | cons y ys =>
      cases q with
      | zero =>
        simp only [List.zip_cons_cons, List.get?] at h ⊢
        cases h
        exact ⟨rfl, rfl⟩
      | succ q =>
        simp only [List.zip_cons_cons, List.get?] at h ⊢
        exact ih ys q a b h

/-- Result-array invariant for `embed_documents`: every filled position
holds either a cache hit of the initial state or a service-produced value
for the text at that position. -/
def AllsOK (svc : Nat → List String → Except String (List Emb)) (st : EmbState)
    (texts : List String) (alls : List (Option Emb)) : Prop :=
  alls.length = texts.length ∧
  ∀ i e, alls.get? i = some (some e) → ∃ t, texts.get? i = some t ∧
    (lookupCaches st t = some e ∨ producedBy svc t e)

lemma allsOK_set (svc : Nat → List String → Except String (List Emb)) (st : EmbState)
    (texts : List String) (alls : List (Option Emb)) (i : Nat) (e : Emb) (t : String)
    (hOK : AllsOK svc st texts alls) (ht : texts.get? i = some t)
    (hprov : lookupCaches st t = some e ∨ producedBy svc t e) :
    AllsOK svc st texts (alls.set i (some e)) := by
  obtain ⟨hlen, hinv⟩ := hOK
  refine ⟨by simpa using hlen, ?_⟩
  intro i2 e2 h2
  by_cases hi : i = i2
  · subst hi
    rw [List.get?_set_eq] at h2
    cases hx : alls.get? i with
    | none => rw [hx] at h2; simp at h2
    | some x =>
      rw [hx] at h2
      simp only [Option.map_some, Option.some.injEq] at h2
      cases h2
      exact ⟨t, ht, hprov⟩
  · rw [List.get?_set_ne _ _ hi] at h2
    exact hinv i2 e2 h2

lemma fillAll_allsOK (svc : Nat → List String → Except String (List Emb))
    (st : EmbState) (texts : List String) (idxOf : List Nat) (uncached : List String)
    (hidx : ∀ p t, uncached.get? p = some t → ∃ i, idxOf.get? p = some i ∧
      texts.get? i = some t) :
    ∀ ps j alls, AllsOK svc st texts alls →
    (∀ q pr, ps.get? q = some pr → uncached.get? (j + q) = some (pr : String × Emb).1 ∧
      producedBy svc pr.1 pr.2) →
    AllsOK svc st texts (fillAll idxOf j ps alls) := by
  intro ps
  induction ps with
  | nil =>
    intro j alls hOK _
    exact hOK
  | cons pr ps ih =>
    intro j alls hOK hps
    simp only [fillAll]
    obtain ⟨hu, hprod⟩ := hps 0 pr rfl
    rw [Nat.add_zero] at hu
    obtain ⟨i, hi, ht⟩ := hidx j pr.1 hu
    have hgetD : idxOf.getD j 0 = i := by
      unfold List.getD
      rw [hi]
      rfl
    rw [hgetD]
    refine ih (j + 1) (alls.set i (some pr.2))
      (allsOK_set svc st texts alls i pr.2 pr.1 hOK ht (Or.inr hprod)) ?_
    intro q pr2 hq
    have : (j + 1) + q = j + (q + 1) := by omega
    rw [this]
    exact hps (q + 1) pr2 (by simpa using hq)

lemma embedDocsLoop_allsOK (svc : Nat → List String → Except String (List Emb))
    (est : String → Nat) (uncached : List String) (idxOf : List Nat)
    (st : EmbState) (texts : List String)
    (hidx : ∀ p t, uncached.get? p = some t → ∃ i, idxOf.get? p = some i ∧
      texts.get? i = some t) :
    ∀ fuel start bs cnt alls stl log out st2 log2,
      AllsOK svc st texts alls →
      embedDocsLoop svc est uncached idxOf fuel start bs cnt alls stl log =
        (.ok out, st2, log2) →
      AllsOK svc st texts out := by
  intro fuel
  induction fuel with
  | zero =>
    intro start bs cnt alls stl log out st2 log2 hOK h
    simp only [embedDocsLoop] at h
    split at h
    · simp only [Prod.mk.injEq] at h
      obtain ⟨h1, -, -⟩ := h
      cases h1
    · simp only [Prod.mk.injEq] at h
      obtain ⟨h1, -, -⟩ := h
      cases h1
      exact hOK
  | succ fuel ih =>
    intro start bs cnt alls stl log out st2 log2 hOK h
    simp only [embedDocsLoop] at h
    split at h
    · cases hretry : embedDocsRetry svc uncached start 5 0
          (shrinkToBudget est uncached start bs bs) cnt with
      | mk r w =>
        rw [hretry] at h
        cases r with
        | error msg =>
          simp only [Prod.mk.injEq] at h
          obtain ⟨h1, -, -⟩ := h
          cases h1
        | ok vb =>
          cases vb with
          | mk vals bsUsed =>
            cases w with
            | mk cnt2 atts =>
              simp only at h
              have hpairs : ∀ q pr, ((pySlice uncached start
                  (min (start + bsUsed) uncached.length)).zip vals).get? q = some pr →
                  uncached.get? (start + q) = some (pr : String × Emb).1 ∧
                    producedBy svc pr.1 pr.2 := by
                intro q pr hq
                obtain ⟨hb, hv⟩ := zip_get _ vals q pr.1 pr.2 (by simpa using hq)
                have hlt : q < min (start + bsUsed) uncached.length - start := by
                  have := List.get?_eq_some.mp hb
                  obtain ⟨hq2, -⟩ := this
                  have hlen := pySlice_length uncached start
                    (min (start + bsUsed) uncached.length)
                  omega
                constructor
                · rw [← pySlice_get uncached start
                    (min (start + bsUsed) uncached.length) q hlt]
                  exact hb
                · obtain ⟨kk, hkk⟩ := embedDocsRetry_ok svc uncached start 5 0
                    (shrinkToBudget est uncached start bs bs) cnt vals bsUsed cnt2 atts hretry
                  exact ⟨kk, _, vals, q, hkk, hb, hv⟩
              exact ih _ _ _ _ _ _ out st2 log2
                (fillAll_allsOK svc st texts idxOf uncached hidx _ start alls hOK hpairs) h
    · simp only [Prod.mk.injEq] at h
      obtain ⟨h1, -, -⟩ := h
      cases h1
      exact hOK

lemma foldl_set_allsOK (svc : Nat → List String → Except String (List Emb))
    (st : EmbState) (texts : List String) :
    ∀ (rs : List (Nat × Emb)) (alls : List (Option Emb)),
      AllsOK svc st texts alls →
      (∀ pr ∈ rs, ∃ t, texts.get? (pr : Nat × Emb).1 = some t ∧
        lookupCaches st t = some pr.2) →
      AllsOK svc st texts (rs.foldl (fun a p => a.set p.1 (some p.2)) alls) := by
  intro rs
  induction rs with
  | nil =>
    intro alls hOK _
    exact hOK
  | cons pr rs ih =>
    intro alls hOK hrs
    simp only [List.foldl_cons]
    obtain ⟨t, ht, hlk⟩ := hrs pr (List.mem_cons_self pr rs)
    exact ih (alls.set pr.1 (some pr.2))
      (allsOK_set svc st texts alls pr.1 pr.2 t hOK ht (Or.inl hlk))
      (fun pr2 hpr2 => hrs pr2 (List.mem_cons_of_mem pr hpr2))

/-- Claim C10: `embed_documents` on the empty list returns the empty list
with untouched state and no events (no remote call); and whenever it
returns a list, that list has exactly one embedding per input text, the
i-th being an embedding of `texts[i]` — a truthy cache hit of the entry
state or a value the service produced for exactly that text — with original
input order restored even when cached and uncached texts interleave.  A
position that could not be filled makes the call raise instead (the `ok`
result is total by construction of the returned list). -/
theorem embed_documents_aligned (svc : Nat → List String → Except String (List Emb))
    (est : String → Nat) (st : EmbState) :
    embed_documents svc est st [] = (.ok [], st, []) ∧
    ∀ texts out st2 log, embed_documents svc est st texts = (.ok out, st2, log) →
      out.length = texts.length ∧
      ∀ i t, texts.get? i = some t → ∃ e, out.get? i = some e ∧
        (lookupCaches st t = some e ∨ producedBy svc t e) := by
  constructor
  · rfl
  · intro texts out st2 log h
    unfold embed_documents at h
    split at h
    · rename_i hnil
      subst hnil
      simp only [Prod.mk.injEq] at h
      obtain ⟨h1, -, -⟩ := h
      cases h1
      exact ⟨rfl, fun i t ht => by simp at ht⟩
    · rename_i hnonnil
      cases hpart : partitionCached st texts 0 with
      | mk rs w =>
        cases w with
        | mk uts w2 =>
          cases w2 with
          | mk uis st1 =>
            rw [hpart] at h
            simp only at h
            split at h
            · rename_i hempty
              have huts : uts = [] := by
                cases uts with
                | nil => rfl
                | cons a as => simp [List.isEmpty] at hempty
              subst huts
              simp only [Prod.mk.injEq] at h
              obtain ⟨h1, -, -⟩ := h
              cases h1
              obtain ⟨hlen, hspec⟩ := partitionCached_all_cached texts st 0 rs uis st1 hpart
              constructor
              · simp [hlen]
              · intro i t ht
                have hi : i < texts.length := (List.get?_eq_some.mp ht).1
                obtain ⟨u, e, hget, htext, hlk⟩ := hspec i hi
                refine ⟨e, ?_, ?_⟩
                · rw [List.get?_map, hget]
                  rfl
                · have hu : u = t := by
                    rw [ht] at htext
                    injection htext with hh
                    exact hh.symm
                  rw [← hu]
                  exact Or.inl hlk
            · cases hloop : embedDocsLoop svc est uts uis uts.length 0 10 0
                  (rs.foldl (fun a p => a.set p.1 (some p.2))
                    (List.replicate texts.length none)) st1 [] with
              | mk r w3 =>
                rw [hloop] at h
                cases r with
                | error msg =>
                  simp only [Prod.mk.injEq] at h
                  obtain ⟨h1, -, -⟩ := h
                  cases h1
                | ok alls2 =>
                  cases w3 with
                  | mk st3 log3 =>
                    simp only at h
                    cases hseq : seqOptions alls2 with
                    | none =>
                      rw [hseq] at h
                      simp only [Prod.mk.injEq] at h
                      obtain ⟨h1, -, -⟩ := h
                      cases h1
                    | some out2 =>
                      rw [hseq] at h
                      simp only [Prod.mk.injEq] at h
                      obtain ⟨h1, -, -⟩ := h
                      cases h1
                      obtain ⟨-, -, hutspec, hrsspec⟩ :=
                        partitionCached_spec texts st 0 rs uts uis st1 hpart
                      have hidx : ∀ p t, uts.get? p = some t → ∃ i, uis.get? p = some i ∧
                          texts.get? i = some t := by
                        intro p t hp
                        obtain ⟨i, hi, -, hget⟩ := hutspec p t hp
                        exact ⟨i, hi, by simpa using hget⟩
                      have hOK0 : AllsOK svc st texts (List.replicate texts.length none) := by
                        refine ⟨by simp, ?_⟩
                        intro i e hi
                        have := List.eq_of_mem_replicate (List.get?_mem hi)
                        cases this
                      have hOK1 : AllsOK svc st texts
                          (rs.foldl (fun a p => a.set p.1 (some p.2))
                            (List.replicate texts.length none)) := by
                        refine foldl_set_allsOK svc st texts rs _ hOK0 ?_
                        intro pr hpr
                        obtain ⟨-, t, hget, hlk⟩ := hrsspec pr hpr
                        exact ⟨t, by simpa using hget, hlk⟩
                      have hOK2 : AllsOK svc st texts alls2 :=
                        embedDocsLoop_allsOK svc est uts uis st texts hidx uts.length 0 10 0
                          _ st1 [] alls2 st3 log3 hOK1 hloop
                      obtain ⟨hlen2, hinv2⟩ := hOK2
                      have houtlen : out.length = texts.length := by
                        rw [seqOptions_length alls2 out hseq, hlen2]
                      refine ⟨houtlen, ?_⟩
                      intro i t ht
                      have hi : i < out.length := by
                        rw [houtlen]
                        exact (List.get?_eq_some.mp ht).1
                      cases hout : out.get? i with
                      | none =>
                        rw [List.get?_eq_none] at hout
                        omega
                      | some e =>
                        obtain ⟨u, hu, hprov⟩ := hinv2 i e (seqOptions_get alls2 out hseq i e hout)
                        refine ⟨e, rfl, ?_⟩
                        have hut : u = t := by
                          rw [ht] at hu
                          injection hu with hh
                          exact hh.symm
                        rw [← hut]
                        exact hprov

/-- Witness service for `embed_documents`: embeds each text of a batch as a
768-entry vector headed by the text length. -/
def svcC10 : Nat → List String → Except String (List Emb) :=
  fun _ batch => .ok (batch.map (fun t => (t.length : Int) :: List.replicate 767 1))

def embOfC10 (t : String) : Emb := (t.length : Int) :: List.replicate 767 1

def resC10 : Except String (List Emb) × EmbState × List EmbEvent :=
  embed_documents svcC10 estimate_tokens emptyEmbState ["x", "yy"]

theorem embed_documents_aligned_witness :
    resC10.1 = .ok [embOfC10 "x", embOfC10 "yy"] ∧
    ([embOfC10 "x", embOfC10 "yy"] : List Emb).length = (["x", "yy"] : List String).length := by
  have h1 : resC10.1 = .ok [embOfC10 "x", embOfC10 "yy"] := by decide
  refine ⟨h1, ?_⟩
  have heq : embed_documents svcC10 estimate_tokens emptyEmbState ["x", "yy"] =
      (.ok [embOfC10 "x", embOfC10 "yy"], resC10.2.1, resC10.2.2) := by
    have h0 : embed_documents svcC10 estimate_tokens emptyEmbState ["x", "yy"] =
        (resC10.1, resC10.2.1, resC10.2.2) := rfl
    rw [h0, h1]
  exact ((embed_documents_aligned svcC10 estimate_tokens emptyEmbState).2
    ["x", "yy"] [embOfC10 "x", embOfC10 "yy"] resC10.2.1 resC10.2.2 heq).1

/-! ## vector_search_manager.py -/

/-- Events of a VectorSearchManager run: a connection-initialization attempt
(the aiplatform client/resource construction is a remote interaction, with
its own bounded retry) and upsert attempts recorded with the batch start,
the batch-size variable, the datapoint count and the outcome. -/
inductive VsEvent where
  | initAttempt (k : Nat) : VsEvent
  | upsertAttempt (start bs size : Nat) (succeeded : Bool) : VsEvent
deriving DecidableEq

def isUpsertEvent : VsEvent → Bool
  | .upsertAttempt _ _ _ _ => true
  | _ => false

structure VsState where
  initialized : Bool
deriving DecidableEq

inductive UpErr where
  | initFailed (msg : String) : UpErr
  | mismatch (ne ni : Nat) : UpErr
  | upsertFailed (msg : String) : UpErr
deriving DecidableEq

/-- `initialize`: up to 3 attempts at constructing the remote clients, with
backoff between attempts; the last failure is re-raised. -/
def initializeVS (initsvc : Nat → Except String Unit) :
    Nat → Nat → Except String Unit × List VsEvent
  | 0, _ => (.error "init attempts exhausted", [])
  | aLeft + 1, k =>
    match initsvc k with
    | .ok _ => (.ok (), [.initAttempt k])
    | .error msg =>
      if k + 1 < 3 then
        let (r, lg) := initializeVS initsvc aLeft (k + 1)
        (r, .initAttempt k :: lg)
      else (.error msg, [.initAttempt k])

/-- Retry loop of `upload_embeddings` for the batch starting at `i`
(max_retries = 5): on a quota-classified failure the batch-size variable is
halved (floor 10) and the current batch rebuilt from the new size; any
failure at the attempt ceiling is re-raised.  Returns the surviving batch
size and upsert-call count together with the per-attempt log. -/
def uploadRetry (upsvc : Nat → List (String × Emb) → Except String Unit)
    (embeddings : List Emb) (ids : List String) (i : Nat) :
    Nat → Nat → Nat → Nat → Except String (Nat × Nat) × List VsEvent
  | 0, _, _, _ => (.error "upload attempts exhausted", [])
  | aLeft + 1, k, bs, cnt =>
    let batchEnd := min (i + bs) embeddings.length
    let datapoints := (pySlice ids i batchEnd).zip (pySlice embeddings i batchEnd)
    match upsvc cnt datapoints with
    | .ok _ => (.ok (bs, cnt + 1), [.upsertAttempt i bs datapoints.length true])
    | .error msg =>
      let bs2 := if isQuotaMsgQL msg then (if bs > 10 then max 10 (bs / 2) else bs) else bs
      if k + 1 < 5 then
        let (r, lg) := uploadRetry upsvc embeddings ids i aLeft (k + 1) bs2 (cnt + 1)
        (r, .upsertAttempt i bs datapoints.length false :: lg)
      else (.error msg, [.upsertAttempt i bs datapoints.length false])

/-- Sequential batch loop of `upload_embeddings`.  The iteration indices are
frozen at creation of the Python `range(0, n, batch_size)` (step 100), while
the batch-size variable shrunk by a retry persists into later batches. -/
def uploadBatches (upsvc : Nat → List (String × Emb) → Except String Unit)
    (embeddings : List Emb) (ids : List String) :
    List Nat → Nat → Nat → List VsEvent → Except String Unit × List VsEvent
  | [], _, _, log => (.ok (), log)
  | i :: rest, bs, cnt, log =>
    match uploadRetry upsvc embeddings ids i 5 0 bs cnt with
    | (.error msg, lg) => (.error msg, log ++ lg)
    | (.ok (bs2, cnt2), lg) => uploadBatches upsvc embeddings ids rest bs2 cnt2 (log ++ lg)

/-- Validation and batching of `upload_embeddings` after initialization. -/
def uploadCore (upsvc : Nat → List (String × Emb) → Except String Unit)
    (embeddings : List Emb) (ids : List String) : Except UpErr Unit × List VsEvent :=
  if embeddings.length ≠ ids.length then
    (.error (.mismatch embeddings.length ids.length), [])
  else if embeddings.isEmpty then (.ok (), [])
  else
    match uploadBatches upsvc embeddings ids
        (List.range' 0 ((embeddings.length + 99) / 100) 100) 100 0 [] with
    | (.ok _, lg) => (.ok (), lg)
    | (.error msg, lg) => (.error (.upsertFailed msg), lg)

/-- `upload_embeddings` from vector_search_manager.py: lazy initialization
first (when not yet initialized), then the id/vector count validation, then
batched upserts. -/
def upload_embeddings (initsvc : Nat → Except String Unit)
    (upsvc : Nat → List (String × Emb) → Except String Unit)
    (st : VsState) (embeddings : List Emb) (ids : List String) :
    Except UpErr Unit × VsState × List VsEvent :=
  if st.initialized then
    let (r, lg) := uploadCore upsvc embeddings ids
    (r, st, lg)
  else
    match initializeVS initsvc 3 0 with
    | (.error msg, ilg) => (.error (.initFailed msg), st, ilg)
    | (.ok _, ilg) =>
      let (r, lg) := uploadCore upsvc embeddings ids
      (r, ⟨true⟩, ilg ++ lg)

lemma initializeVS_events (initsvc : Nat → Except String Unit) :
    ∀ aLeft k, ((initializeVS initsvc aLeft k).2.all fun ev => !isUpsertEvent ev) = true := by
  intro aLeft
  induction aLeft with
  | zero =>
    intro k
    rfl
  | succ aLeft ih =>
    intro k
    simp only [initializeVS]
    cases initsvc k with
    | ok u => rfl
    | error msg =>
      simp only
      split
      · cases hrec : initializeVS initsvc aLeft (k + 1) with
        | mk r lg =>
          have := ih (k + 1)
          rw [hrec] at this
          simpa [isUpsertEvent] using this
      · rfl

/-- Claim C7 (amended): a call to `upload_embeddings` with mismatching
vector/id counts fails with the validation error without a single upsert
attempt and without retrying the validation; on an already-initialized
manager no remote interaction at all precedes the failure.  On a manager
not yet initialized, however, the lazy connection initialization (a remote
interaction with its own retry) runs before the validation check, which is
what the unamended claim overlooked. -/
theorem upload_embeddings_mismatch_rejected (initsvc : Nat → Except String Unit)
    (upsvc : Nat → List (String × Emb) → Except String Unit)
    (st : VsState) (embeddings : List Emb) (ids : List String)
    (hmis : embeddings.length ≠ ids.length) :
    ((upload_embeddings initsvc upsvc st embeddings ids).1 =
        .error (.mismatch embeddings.length ids.length) ∨
      ∃ msg, (upload_embeddings initsvc upsvc st embeddings ids).1 =
        .error (.initFailed msg)) ∧
    ((upload_embeddings initsvc upsvc st embeddings ids).2.2.all
      fun ev => !isUpsertEvent ev) = true ∧
    (st.initialized = true →
      upload_embeddings initsvc upsvc st embeddings ids =
        (.error (.mismatch embeddings.length ids.length), st, [])) := by
  unfold upload_embeddings uploadCore
  by_cases hinit : st.initialized
  · simp only [if_pos hinit, if_pos hmis]
    exact ⟨Or.inl (by trivial), by trivial, fun _ => by trivial⟩
  · simp only [if_neg hinit]
    cases hiv : initializeVS initsvc 3 0 with
    | mk r ilg =>
      have hev := initializeVS_events initsvc 3 0
      rw [hiv] at hev
      cases r with
      | error msg =>
        simp only
        exact ⟨Or.inr ⟨msg, rfl⟩, hev, fun hc => absurd hc hinit⟩
      | ok u =>
        simp only [if_pos hmis]
        refine ⟨Or.inl (by trivial), ?_, fun hc => absurd hc hinit⟩
        simpa using hev

theorem upload_embeddings_mismatch_rejected_witness :
    (3 : Nat) ≠ 2 ∧
    upload_embeddings (fun _ => .ok ()) (fun _ _ => .ok ()) ⟨true⟩
        [[1], [2], [3]] ["a", "b"] = (.error (.mismatch 3 2), ⟨true⟩, []) :=
  ⟨by decide, (upload_embeddings_mismatch_rejected (fun _ => .ok ()) (fun _ _ => .ok ())
    ⟨true⟩ [[1], [2], [3]] ["a", "b"] (by decide)).2.2 rfl⟩

/-- Claim C7 counterexample: on a not-yet-initialized manager the same
mismatching call performs a remote connection-initialization attempt before
the validation failure — the event log is not empty, refuting "no remote
call is attempted before the failure" as a universal statement. -/
theorem upload_embeddings_mismatch_init_first :
    upload_embeddings (fun _ => .ok ()) (fun _ _ => .ok ()) ⟨false⟩
        [[1], [2], [3]] ["a", "b"] =
      (.error (.mismatch 3 2), ⟨true⟩, [.initAttempt 0]) := by
  decide

lemma embedDocsRetry_head (svc : Nat → List String → Except String (List Emb))
    (uncached : List String) (start : Nat) (aLeft k bs cnt : Nat) :
    ∃ o, ((embedDocsRetry svc uncached start (aLeft + 1) k bs cnt).2.2).get? 0 =
      some (start, bs, (pySlice uncached start (min (start + bs) uncached.length)).length, o) := by
  simp only [embedDocsRetry]
  cases svc cnt (pySlice uncached start (min (start + bs) uncached.length)) with
  | ok v => exact ⟨true, rfl⟩
  | error msg =>
    simp only
    split
    · cases embedDocsRetry svc uncached start aLeft (k + 1)
          (if bs > 1 then max 1 (bs / 2) else bs) (cnt + 1) with
      | mk r w =>
        cases w with
        | mk c2 lg => exact ⟨false, rfl⟩
    · split
      · cases embedDocsRetry svc uncached start aLeft (k + 1) bs (cnt + 1) with
        | mk r w =>
          cases w with
          | mk c2 lg => exact ⟨false, rfl⟩
      · exact ⟨false, rfl⟩

lemma uploadRetry_head (upsvc : Nat → List (String × Emb) → Except String Unit)
    (embeddings : List Emb) (ids : List String) (i : Nat) (aLeft k bs cnt : Nat) :
    ∃ o, ((uploadRetry upsvc embeddings ids i (aLeft + 1) k bs cnt).2).get? 0 =
      some (.upsertAttempt i bs
        ((pySlice ids i (min (i + bs) embeddings.length)).zip
          (pySlice embeddings i (min (i + bs) embeddings.length))).length o) := by
  simp only [uploadRetry]
  cases upsvc cnt ((pySlice ids i (min (i + bs) embeddings.length)).zip
      (pySlice embeddings i (min (i + bs) embeddings.length))) with
  | ok u => exact ⟨true, rfl⟩
  | error msg =>
    simp only
    split
    · cases uploadRetry upsvc embeddings ids i aLeft (k + 1)
          (if isQuotaMsgQL msg then (if bs > 10 then max 10 (bs / 2) else bs) else bs)
          (cnt + 1) with
      | mk r lg => exact ⟨false, rfl⟩
    · exact ⟨false, rfl⟩

lemma embedSecondAttempt (svc : Nat → List String → Except String (List Emb))
    (uncached : List String) (start aLeft k bs cnt : Nat) (msg : String)
    (hsvc : svc cnt (pySlice uncached start (min (start + bs) uncached.length)) = .error msg)
    (hq : isQuotaMsgQE msg = true) :
    ((embedDocsRetry svc uncached start (aLeft + 1 + 1) k bs cnt).2.2.get? 0 =
      some (start, bs,
        (pySlice uncached start (min (start + bs) uncached.length)).length, false)) ∧
    (∃ o, (embedDocsRetry svc uncached start (aLeft + 1 + 1) k bs cnt).2.2.get? 1 =
      some (start, (if bs > 1 then max 1 (bs / 2) else bs),
        (pySlice uncached start (min (start + (if bs > 1 then max 1 (bs / 2) else bs))
          uncached.length)).length, o)) ∧
    ((pySlice uncached start (min (start + (if bs > 1 then max 1 (bs / 2) else bs))
        uncached.length)).length ≤
      (pySlice uncached start (min (start + bs) uncached.length)).length) ∧
    (bs > 1 → (if bs > 1 then max 1 (bs / 2) else bs) < bs) := by
  have hstep : (embedDocsRetry svc uncached start (aLeft + 1 + 1) k bs cnt).2.2 =
      (start, bs, (pySlice uncached start (min (start + bs) uncached.length)).length, false)
        :: (embedDocsRetry svc uncached start (aLeft + 1) (k + 1)
          (if bs > 1 then max 1 (bs / 2) else bs) (cnt + 1)).2.2 := by
    simp only [embedDocsRetry, hsvc, hq, if_true]
  obtain ⟨o, ho⟩ := embedDocsRetry_head svc uncached start aLeft (k + 1)
    (if bs > 1 then max 1 (bs / 2) else bs) (cnt + 1)
  refine ⟨by rw [hstep]; rfl, ⟨o, by rw [hstep]; simpa using ho⟩, ?_, ?_⟩
  · rw [pySlice_length, pySlice_length]
    have hle : (if bs > 1 then max 1 (bs / 2) else bs) ≤ bs := by split <;> omega
    omega
  · intro hbs
    rw [if_pos hbs]
    omega

lemma uploadSecondAttempt (upsvc : Nat → List (String × Emb) → Except String Unit)
    (embeddings : List Emb) (ids : List String) (i aLeft k bs cnt : Nat) (msg : String)
    (hsvc : upsvc cnt ((pySlice ids i (min (i + bs) embeddings.length)).zip
      (pySlice embeddings i (min (i + bs) embeddings.length))) = .error msg)
    (hq : isQuotaMsgQL msg = true)
    (hk : k + 1 < 5) :
    ((uploadRetry upsvc embeddings ids i (aLeft + 1 + 1) k bs cnt).2.get? 0 =
      some (.upsertAttempt i bs
        ((pySlice ids i (min (i + bs) embeddings.length)).zip
          (pySlice embeddings i (min (i + bs) embeddings.length))).length false)) ∧
    (∃ o, (uploadRetry upsvc embeddings ids i (aLeft + 1 + 1) k bs cnt).2.get? 1 =
      some (.upsertAttempt i (if bs > 10 then max 10 (bs / 2) else bs)
        ((pySlice ids i (min (i + (if bs > 10 then max 10 (bs / 2) else bs))
            embeddings.length)).zip
          (pySlice embeddings i (min (i + (if bs > 10 then max 10 (bs / 2) else bs))
            embeddings.length))).length o)) ∧
    (((pySlice ids i (min (i + (if bs > 10 then max 10 (bs / 2) else bs))
        embeddings.length)).zip
      (pySlice embeddings i (min (i + (if bs > 10 then max 10 (bs / 2) else bs))
        embeddings.length))).length ≤
      ((pySlice ids i (min (i + bs) embeddings.length)).zip
        (pySlice embeddings i (min (i + bs) embeddings.length))).length) ∧
    (bs > 10 → (if bs > 10 then max 10 (bs / 2) else bs) < bs) := by
  have hstep : (uploadRetry upsvc embeddings ids i (aLeft + 1 + 1) k bs cnt).2 =
      .upsertAttempt i bs
        ((pySlice ids i (min (i + bs) embeddings.length)).zip
          (pySlice embeddings i (min (i + bs) embeddings.length))).length false
        :: (uploadRetry upsvc embeddings ids i (aLeft + 1) (k + 1)
          (if bs > 10 then max 10 (bs / 2) else bs) (cnt + 1)).2 := by
    simp only [uploadRetry, hsvc, hq, if_true, if_pos hk]
  obtain ⟨o, ho⟩ := uploadRetry_head upsvc embeddings ids i aLeft (k + 1)
    (if bs > 10 then max 10 (bs / 2) else bs) (cnt + 1)
  refine ⟨by rw [hstep]; rfl, ⟨o, by rw [hstep]; simpa using ho⟩, ?_, ?_⟩
  · rw [List.length_zip, List.length_zip, pySlice_length, pySlice_length,
      pySlice_length, pySlice_length]
    have hle : (if bs > 10 then max 10 (bs / 2) else bs) ≤ bs := by split <;> omega
    omega
  · intro hbs
    rw [if_pos hbs]
    omega

/-- Claim C6 (amended): when the first remote attempt of a batch fails with
a quota-classified error, the second attempt never uses a larger batch than
the first: the batch-size variable is strictly halved whenever it is above
its floor (1 for `embed_documents`, 10 for `upload_embeddings`), and the
batch actually retried — rebuilt from the halved size over the remaining
items — has at most the size of the first attempt.  Equality is possible
(see the counterexample) when few items remain, so "strictly smaller" does
not hold universally. -/
theorem batch_second_attempt_no_larger :
    (∀ (svc : Nat → List String → Except String (List Emb))
      (uncached : List String) (start aLeft k bs cnt : Nat) (msg : String),
      svc cnt (pySlice uncached start (min (start + bs) uncached.length)) = .error msg →
      isQuotaMsgQE msg = true →
      ((pySlice uncached start (min (start + (if bs > 1 then max 1 (bs / 2) else bs))
          uncached.length)).length ≤
        (pySlice uncached start (min (start + bs) uncached.length)).length) ∧
      (∃ o, (embedDocsRetry svc uncached start (aLeft + 1 + 1) k bs cnt).2.2.get? 1 =
        some (start, (if bs > 1 then max 1 (bs / 2) else bs),
          (pySlice uncached start (min (start + (if bs > 1 then max 1 (bs / 2) else bs))
            uncached.length)).length, o)) ∧
      (bs > 1 → (if bs > 1 then max 1 (bs / 2) else bs) < bs)) ∧
    (∀ (upsvc : Nat → List (String × Emb) → Except String Unit)
      (embeddings : List Emb) (ids : List String) (i aLeft k bs cnt : Nat) (msg : String),
      upsvc cnt ((pySlice ids i (min (i + bs) embeddings.length)).zip
        (pySlice embeddings i (min (i + bs) embeddings.length))) = .error msg →
      isQuotaMsgQL msg = true →
      k + 1 < 5 →
      (((pySlice ids i (min (i + (if bs > 10 then max 10 (bs / 2) else bs))
          embeddings.length)).zip
        (pySlice embeddings i (min (i + (if bs > 10 then max 10 (bs / 2) else bs))
          embeddings.length))).length ≤
        ((pySlice ids i (min (i + bs) embeddings.length)).zip
          (pySlice embeddings i (min (i + bs) embeddings.length))).length) ∧
      (∃ o, (uploadRetry upsvc embeddings ids i (aLeft + 1 + 1) k bs cnt).2.get? 1 =
        some (.upsertAttempt i (if bs > 10 then max 10 (bs / 2) else bs)
          ((pySlice ids i (min (i + (if bs > 10 then max 10 (bs / 2) else bs))
              embeddings.length)).zip
            (pySlice embeddings i (min (i + (if bs > 10 then max 10 (bs / 2) else bs))
              embeddings.length))).length o)) ∧
      (bs > 10 → (if bs > 10 then max 10 (bs / 2) else bs) < bs)) := by
  constructor
  · intro svc uncached start aLeft k bs cnt msg hsvc hq
    obtain ⟨-, h2, h3, h4⟩ := embedSecondAttempt svc uncached start aLeft k bs cnt msg hsvc hq
    exact ⟨h3, h2, h4⟩
  · intro upsvc embeddings ids i aLeft k bs cnt msg hsvc hq hk
    obtain ⟨-, h2, h3, h4⟩ :=
      uploadSecondAttempt upsvc embeddings ids i aLeft k bs cnt msg hsvc hq hk
    exact ⟨h3, h2, h4⟩

theorem batch_second_attempt_no_larger_witness :
    isQuotaMsgQE "quota" = true ∧ isQuotaMsgQL "limit" = true ∧
    ((if 10 > 1 then max 1 (10 / 2) else 10) < 10) ∧
    ((if 100 > 10 then max 10 (100 / 2) else 100) < 100) :=
  ⟨by decide, by decide,
    (batch_second_attempt_no_larger.1 (fun _ _ => .error "quota") ["a", "b", "c"] 0 3 0 10 0
      "quota" rfl (by decide)).2.2 (by decide),
    (batch_second_attempt_no_larger.2 (fun _ _ => .error "limit") [[1], [2], [3]]
      ["a", "b", "c"] 0 3 0 100 0 "limit" rfl (by decide) (by decide)).2.2 (by decide)⟩

/-- Upsert service failing the first call with a quota error, succeeding
afterwards. -/
def upsvcC6 : Nat → List (String × Emb) → Except String Unit :=
  fun k _ => if k = 0 then .error "429 quota exceeded" else .ok ()

/-- Claim C6 counterexample: an upload of three vectors whose first upsert
attempt fails with a quota error retries with a halved batch-size variable
(100 to 50) — but the second attempt re-sends the same three datapoints:
its batch size equals the first attempt and is not strictly smaller. -/
theorem upload_second_attempt_same_size :
    upload_embeddings (fun _ => .ok ()) upsvcC6 ⟨true⟩ [[1], [2], [3]] ["a", "b", "c"] =
      (.ok (), ⟨true⟩, [.upsertAttempt 0 100 3 false, .upsertAttempt 0 50 3 true]) ∧
    ¬ ((3 : Nat) < 3) :=
  ⟨by decide, by decide⟩

/-! ## vectordb_service.py -/

/-- Metadata payloads are opaque to the store; a numeric token models them. -/
abbrev Meta := Nat

/-- A docstore record: page content with its metadata. -/
abbrev DocRec := String × Meta

inductive BuildErr where
  | indexError : BuildErr
  | embedFailed (msg : String) : BuildErr
  | noValidEmbeddings : BuildErr
  | uploadFailed (msg : String) : BuildErr
deriving DecidableEq

structure BuildResult where
  docstore : List (String × DocRec)
  indexToDocstoreId : List (Int × String)
  uploadedIds : List String
  validEmbeddings : List Emb
  finalTexts : List String
  finalMetadatas : List Meta
deriving DecidableEq

/-- Oversize filter of `create_and_upload`: drop texts whose estimate
exceeds 15000; `metadatas[i]` is read only for kept texts and a missing
entry raises (Python IndexError). -/
def filterOversized (est : String → Nat) :
    List String → List Meta → Nat → Except BuildErr (List String × List Meta)
  | [], _, _ => .ok ([], [])
  | t :: rest, metas, i =>
    if est t > 15000 then filterOversized est rest metas (i + 1)
    else
      match metas.get? i with
      | none => .error .indexError
      | some m =>
        match filterOversized est rest metas (i + 1) with
        | .error e => .error e
        | .ok (vt, vm) => .ok (t :: vt, m :: vm)

/-- Embedding retry of `create_and_upload` for the batch at `i`
(max_retries = 5): `k` is the retry count before the attempt.  After the
third quota-classified failure the batch-size variable is halved (floor 5)
and the batch rebuilt; five quota failures exhaust the loop and the batch
is skipped (`none`); a non-quota failure at the ceiling re-raises. -/
def buildRetry (svc : Nat → List String → Except String (List Emb))
    (valid : List String) (i : Nat) :
    Nat → Nat → Nat → Nat → Except String (Option (List Emb) × Nat × Nat)
  | 0, _, bs, cnt => .ok (none, bs, cnt)
  | aLeft + 1, k, bs, cnt =>
    let endIdx := min (i + bs) valid.length
    let batch := pySlice valid i endIdx
    match svc cnt batch with
    | .ok embs => .ok (some embs, bs, cnt + 1)
    | .error msg =>
      if isQuotaMsgQL msg then
        let bs2 := if k + 1 > 2 ∧ bs > 5 then max 5 (bs / 2) else bs
        buildRetry svc valid i aLeft (k + 1) bs2 (cnt + 1)
      else if k + 1 < 5 then buildRetry svc valid i aLeft (k + 1) bs (cnt + 1)
      else .error msg

/-- Outer embedding loop of `create_and_upload`: the iteration indices are
frozen at creation of `range(0, len(valid_texts), batch_size)` (step 20),
while the shrunken batch-size variable persists across batches; a batch
skipped after exhausted quota retries contributes nothing to the
accumulated embedding list, which is nevertheless zipped positionally
against the full text list afterwards. -/
def buildBatchLoop (svc : Nat → List String → Except String (List Emb))
    (valid : List String) :
    List Nat → Nat → Nat → List Emb → Except String (List Emb)
  | [], _, _, acc => .ok acc
  | i :: rest, bs, cnt, acc =>
    match buildRetry svc valid i 5 0 bs cnt with
    | .error msg => .error msg
    | .ok (none, bs2, cnt2) => buildBatchLoop svc valid rest bs2 cnt2 acc
    | .ok (some embs, bs2, cnt2) => buildBatchLoop svc valid rest bs2 cnt2 (acc ++ embs)

/-- Filtering plus batched embedding: the first two stages of
`create_and_upload`. -/
def embedPhase (est : String → Nat) (svc : Nat → List String → Except String (List Emb))
    (texts : List String) (metas : List Meta) :
    Except BuildErr (List Emb × List String × List Meta) :=
  match filterOversized est texts metas 0 with
  | .error e => .error e
  | .ok (vt, vm) =>
    match buildBatchLoop svc vt (List.range' 0 ((vt.length + 19) / 20) 20) 20 0 [] with
    | .error msg => .error (.embedFailed msg)
    | .ok es => .ok (es, vt, vm)

/-- `zip(embeddings, valid_texts, valid_metadatas)`: truncates at the
shortest list, exactly as the Python zip does. -/
def zip3 : List Emb → List String → List Meta → List (Emb × String × Meta)
  | e :: es, t :: ts, m :: ms => (e, t, m) :: zip3 es ts ms
  | _, _, _ => []

/-- Validation filter of `create_and_upload`: keep rows whose embedding
validates; text and metadata of a dropped row are dropped with it. -/
def validRows (rows : List (Emb × String × Meta)) : List (Emb × String × Meta) :=
  rows.filter (fun r => validate_embedding r.1)

/-- Sequential id assignment: `doc_{i}` ids, docstore records and the
index-to-docstore mapping, in final-list order. -/
def assignDocs : List (String × Meta) → Nat →
    List (String × DocRec) × List (Int × String) × List String
  | [], _ => ([], [], [])
  | (t, m) :: rest, i =>
    let (ds, mp, ids) := assignDocs rest (i + 1)
    (("doc_" ++ toString i, (t, m)) :: ds, ((i : Int), "doc_" ++ toString i) :: mp,
      ("doc_" ++ toString i) :: ids)

/-- Upload retry of `create_and_upload` (3 attempts) around the vector
index client upload, abstracted as the attempt-indexed oracle `up`. -/
def buildUploadRetry (up : Nat → Except String Unit) : Nat → Nat → Except String Unit
  | 0, _ => .error "upload retries exhausted"
  | aLeft + 1, k =>
    match up k with
    | .ok _ => .ok ()
    | .error msg => if k + 1 < 3 then buildUploadRetry up aLeft (k + 1) else .error msg

/-- `create_and_upload` from vectordb_service.py. -/
def create_and_upload (est : String → Nat)
    (svc : Nat → List String → Except String (List Emb))
    (up : Nat → Except String Unit)
    (texts : List String) (metas : List Meta) : Except BuildErr BuildResult :=
  match embedPhase est svc texts metas with
  | .error e => .error e
  | .ok (es, vt, vm) =>
    let kept := validRows (zip3 es vt vm)
    let ve := kept.map (fun r => r.1)
    let ft := kept.map (fun r => r.2.1)
    let fm := kept.map (fun r => r.2.2)
    if ve.isEmpty then .error .noValidEmbeddings
    else
      let (ds, mp, ids) := assignDocs (ft.zip fm) 0
      match buildUploadRetry up 3 0 with
      | .error msg => .error (.uploadFailed msg)
      | .ok _ => .ok ⟨ds, mp, ids, ve, ft, fm⟩

/-! ### VectorSearchRetriever.invoke -/

inductive RetrErr where
  | embedFailed (msg : String) : RetrErr
  | invalidQueryEmbedding : RetrErr
  | searchFailed (msg : String) : RetrErr
  | badNeighborId (nid : String) : RetrErr
  | missingMapping (k : Int) : RetrErr
  | missingDoc (did : String) : RetrErr
deriving DecidableEq

/-- Quota classification used by `invoke` when embedding the query:
`"429" in msg or "quota" in msg.lower()`. -/
def isQuotaMsgQ (msg : String) : Bool :=
  strContains msg "429" || strContains (strLower msg) "quota"

def digitsValGo : List Char → Nat → Option Nat
  | [], acc => some acc
  | c :: rest, acc =>
    if c.isDigit then digitsValGo rest (acc * 10 + (c.toNat - 48)) else none

/-- Python `int(s)` on a plain string: optional sign followed by one or
more decimal digits; anything else raises (here: `none`). -/
def pyIntParse (s : String) : Option Int :=
  match s.data with
  | [] => none
  | '-' :: c :: rest =>
    if c.isDigit then (digitsValGo (c :: rest) 0).map (fun n => -(n : Int)) else none
  | '+' :: c :: rest =>
    if c.isDigit then (digitsValGo (c :: rest) 0).map (fun n => (n : Int)) else none
  | c :: rest =>
    if c.isDigit then (digitsValGo (c :: rest) 0).map (fun n => (n : Int)) else none

/-- Query-embedding retry of `invoke` (3 attempts). -/
def invokeEmbedRetry (esvc : Nat → Except String Emb) : Nat → Nat → Except String Emb
  | 0, _ => .error "Failed to generate query embedding after 3 attempts"
  | aLeft + 1, k =>
    match esvc k with
    | .ok e => .ok e
    | .error msg =>
      if isQuotaMsgQ msg then invokeEmbedRetry esvc aLeft (k + 1)
      else if k + 1 < 3 then invokeEmbedRetry esvc aLeft (k + 1)
      else .error msg

/-- Search retry of `invoke` (3 attempts, uniform backoff). -/
def invokeSearchRetry (ssvc : Nat → Except String (List String)) :
    Nat → Nat → Except String (List String)
  | 0, _ => .error "Failed to search after 3 attempts"
  | aLeft + 1, k =>
    match ssvc k with
    | .ok ns => .ok ns
    | .error msg =>
      if k + 1 < 3 then invokeSearchRetry ssvc aLeft (k + 1) else .error msg

/-- Neighbor resolution of `invoke`:
`docstore._dict[index_to_docstore_id[int(neighbor.id)]]` — the neighbor id
string is converted with `int(...)` (raising on non-numeric ids), then sent
through the index-to-docstore mapping and the docstore. -/
def resolveNeighbor (mapping : List (Int × String)) (docstore : List (String × DocRec))
    (nid : String) : Except RetrErr DocRec :=
  match pyIntParse nid with
  | none => .error (.badNeighborId nid)
  | some kk =>
    match List.lookup kk mapping with
    | none => .error (.missingMapping kk)
    | some did =>
      match List.lookup did docstore with
      | none => .error (.missingDoc did)
      | some doc => .ok doc

/-- `VectorSearchRetriever.invoke`: embed the query with retry, validate,
search with retry, then resolve each neighbor id in rank order. -/
def invoke (esvc : Nat → Except String Emb) (ssvc : Nat → Except String (List String))
    (mapping : List (Int × String)) (docstore : List (String × DocRec)) :
    Except RetrErr (List DocRec) :=
  match invokeEmbedRetry esvc 3 0 with
  | .error msg => .error (.embedFailed msg)
  | .ok qe =>
    if validate_embedding qe then
      match invokeSearchRetry ssvc 3 0 with
      | .error msg => .error (.searchFailed msg)
      | .ok neighbors => neighbors.mapM (resolveNeighbor mapping docstore)
    else .error .invalidQueryEmbedding

/-- Embedding assigned by the build-oracle of the misalignment scenario:
a 768-entry vector headed by the character-code sum of the text, so that
distinct short texts receive distinct embeddings. -/
def embOfBuild (t : String) : Emb :=
  (t.data.map (fun c => (c.toNat : Int))).sum :: List.replicate 767 1

/-- A service failing every attempt of the first batch with a quota error
(five attempts) and succeeding afterwards. -/
def svcC1 : Nat → List String → Except String (List Emb) :=
  fun cnt batch => if cnt < 5 then .error "quota" else .ok (batch.map embOfBuild)

def textsC1 : List String := (List.range 21).map (fun i => toString i)

def metasC1 : List Meta := List.range 21

def buildC1 : Except BuildErr BuildResult :=
  create_and_upload estimate_tokens svcC1 (fun _ => .ok ()) textsC1 metasC1

/-- Claim C1: with 21 texts (two batches of the hard-coded size 20), five
quota failures on the first batch make `create_and_upload` skip it, after
which the only embedding produced — the service embedded exactly the batch
["20"], yielding `embOfBuild "20"` — is zipped against the head of the full
text list: the store keeps text "0" with metadata 0 under `doc_0` while
index position 0 carries the embedding of text "20".  The docstore entry
`index_to_docstore_id[0]` resolves to does NOT hold the text that produced
embedding 0, refuting the alignment invariant under batch-skip patterns. -/
theorem create_and_upload_misaligned_after_skip :
    (buildC1.map fun r => (r.finalTexts, r.finalMetadatas, r.uploadedIds,
      List.lookup "doc_0" r.docstore)) = .ok (["0"], [0], ["doc_0"], some ("0", 0)) ∧
    (buildC1.map fun r => r.validEmbeddings) = .ok [embOfBuild "20"] ∧
    embOfBuild "20" ≠ embOfBuild "0" :=
  ⟨by decide, by decide, by decide⟩

def textsC2 : List String := ["alpha", "beta", "gamma"]

def metasC2 : List Meta := [0, 1, 2]

def svcC2 : Nat → List String → Except String (List Emb) :=
  fun _ batch => .ok (batch.map embOfBuild)

def storeC2 : Except BuildErr BuildResult :=
  create_and_upload estimate_tokens svcC2 (fun _ => .ok ()) textsC2 metasC2

/-- Claim C2: a store built from three unique texts uploads the string ids
`doc_0, doc_1, doc_2`; a stub search service returning the uploaded id of
the exact match (`doc_1` for the second text) makes `invoke` fail while
converting the neighbor id with `int(...)` — the lookup performed at query
time cannot resolve the ids assigned at upload time, even though the
docstore does hold the matching document under `doc_1`. -/
theorem invoke_cannot_resolve_uploaded_ids :
    storeC2 = .ok ⟨[("doc_0", ("alpha", 0)), ("doc_1", ("beta", 1)),
        ("doc_2", ("gamma", 2))],
      [(0, "doc_0"), (1, "doc_1"), (2, "doc_2")], ["doc_0", "doc_1", "doc_2"],
      [embOfBuild "alpha", embOfBuild "beta", embOfBuild "gamma"],
      ["alpha", "beta", "gamma"], [0, 1, 2]⟩ ∧
    invoke (fun _ => .ok (embOfBuild "beta")) (fun _ => .ok ["doc_1"])
      [(0, "doc_0"), (1, "doc_1"), (2, "doc_2")]
      [("doc_0", ("alpha", 0)), ("doc_1", ("beta", 1)), ("doc_2", ("gamma", 2))] =
      .error (.badNeighborId "doc_1") ∧
    List.lookup "doc_1"
      [("doc_0", ("alpha", 0)), ("doc_1", ("beta", 1)), ("doc_2", ("gamma", 2))] =
      some ("beta", 1) :=
  ⟨by decide, by decide, by decide⟩

lemma filterOversized_error (est : String → Nat) :
    ∀ (texts : List String) (metas : List Meta) (i : Nat) e,
      filterOversized est texts metas i = .error e → e = .indexError := by
  intro texts
  induction texts with
  | nil =>
    intro metas i e h
    simp [filterOversized] at h
  | cons t rest ih =>
    intro metas i e h
    simp only [filterOversized] at h
    split at h
    · exact ih metas (i + 1) e h
    · cases hm : metas.get? i with
      | none =>
        rw [hm] at h
        simp only [Except.error.injEq] at h
        exact h.symm
      | some m =>
        rw [hm] at h
        cases hr : filterOversized est rest metas (i + 1) with
        | error e2 =>
          rw [hr] at h
          simp only [Except.error.injEq] at h
          rw [← h]
          exact ih metas (i + 1) e2 hr
        | ok p =>
          rw [hr] at h
          simp at h

lemma embedPhase_never_noValid (est : String → Nat)
    (svc : Nat → List String → Except String (List Emb))
    (texts : List String) (metas : List Meta) :
    embedPhase est svc texts metas ≠ .error .noValidEmbeddings := by
  unfold embedPhase
  cases hf : filterOversized est texts metas 0 with
  | error e =>
    have he := filterOversized_error est texts metas 0 e hf
    subst he
    intro h
    cases h
  | ok p =>
    cases p with
    | mk vt vm =>
      simp only
      cases buildBatchLoop svc vt (List.range' 0 ((vt.length + 19) / 20) 20) 20 0 [] with
      | error msg => intro h; cases h
      | ok es => intro h; cases h

/-- Claim C9: `create_and_upload` fails with the dedicated
no-valid-embeddings error exactly when the embedding phase completed but
validation filtered out every produced embedding — never silently producing
an empty store, and never raising this particular error for any other
reason (filter, embedding and upload failures carry their own errors). -/
theorem create_and_upload_zero_valid_iff (est : String → Nat)
    (svc : Nat → List String → Except String (List Emb))
    (up : Nat → Except String Unit) (texts : List String) (metas : List Meta) :
    create_and_upload est svc up texts metas = .error .noValidEmbeddings ↔
    ∃ es vt vm, embedPhase est svc texts metas = .ok (es, vt, vm) ∧
      validRows (zip3 es vt vm) = [] := by
  constructor
  · intro h
    unfold create_and_upload at h
    cases hep : embedPhase est svc texts metas with
    | error e =>
      rw [hep] at h
      simp only [Except.error.injEq] at h
      rw [h] at hep
      exact absurd hep (embedPhase_never_noValid est svc texts metas)
    | ok p =>
      rcases p with ⟨es, vt, vm⟩
      rw [hep] at h
      simp only at h
      split at h
      · rename_i hempty
        refine ⟨es, vt, vm, rfl, ?_⟩
        cases hrows : validRows (zip3 es vt vm) with
        | nil => rfl
        | cons r rows =>
          rw [hrows] at hempty
          simp at hempty
      · cases hup : buildUploadRetry up 3 0 with
        | error msg =>
          rw [hup] at h
          cases h
        | ok u =>
          rw [hup] at h
          cases h
  · rintro ⟨es, vt, vm, hep, hrows⟩
    unfold create_and_upload
    rw [hep]
    simp [hrows]
